import Mathlib

/-!
# RTP packetizer of `packet/rtp.go`

A shallow embedding of the RTP side of the `packet` package: the header codec
(`addRtpHeader`), the fragmenter (`fragmentation`), the frame packetizer
(`Send2data`) and the transport dispatch of `Service`.

Conventions of the embedding.

* A byte is a `Nat`; a byte slice is a `List Nat`.  Go's `uint16`/`uint32`
  arithmetic is written with an explicit `% 2 ^ w`.
* Go `int` values (lengths, indices, the package constants) are `Int`.
* The channel `rtp.payload` is the list of packets sent on it, oldest first;
  a send appends at the end.
* The loops carry a fuel argument.  A run ends in a `Status`: `done` when the
  Go function returns, `panicked` when a slice expression is out of range,
  `outOfFuel` when the fuel is used up.  The session reached so far is kept
  in every case, so packets sent before a fault remain observable.
-/

namespace packet

/-! ## Package constants and collaborators that live outside `rtp.go` -/

/-- Modelled from the spec: the constant `RTPHeaderLength` is declared outside
`rtp.go`; the spec fixes the RTP header at 12 bytes (and `addRtpHeader` itself
adds the literal 12 when it computes the length prefix). -/
def RTPHeaderLength : Int := 12

/-- The package constants used by `rtp.go` whose declarations are not part of
the file: they are parameters of the development. -/
structure Consts where
  RtpLoadLength : Int
  PESLoadLength : Int
  StreamIDVideo : Int
  UDPTransfer : Int
  TCPTransferPassive : Int
  TCPTransferActive : Int
  deriving Repr, DecidableEq

/-- The PS/PES encapsulator `encPSPacket`, declared outside `rtp.go`.  Its four
operations are parameters; `rtp.go` treats their results as plain byte
slices. -/
structure encPSPacket where
  addPSHeader : Nat → List Nat
  addSystemHeader : List Nat → Int → Int → List Nat
  addMapHeader : List Nat → List Nat
  addPESHeader : List Nat → Int → Int → Nat → Nat → List Nat

/-! ## The bit writer -/

/-- Modelled from the spec: the bit writer (`bitsInit`, `bitsWrite`) is declared
outside `rtp.go`.  The spec describes it as "allocate N bytes; sequentially
write fields of specified bit-widths in big-endian bit order": a byte buffer
and the number of bits written so far. -/
structure bitsBuffer where
  iSize : Nat
  iData : Nat
  pData : List Nat
  deriving Repr, DecidableEq

/-- Modelled from the spec: `bitsInit` starts a writer at bit 0 of the given
buffer. -/
def bitsInit (isize : Nat) (buffer : List Nat) : bitsBuffer :=
  { iSize := isize, iData := 0, pData := buffer }

/-- Modelled from the spec: store one bit at bit position `k` of the buffer,
most significant bit of each byte first: bit `7 - k % 8` of byte `k / 8` is
replaced, the bits above and below it are kept. -/
def putBit (p : List Nat) (k : Nat) (bit : Nat) : List Nat :=
  let x := p.getD (k / 8) 0
  let w := 2 ^ (7 - k % 8)
  p.set (k / 8) (x / (2 * w) * (2 * w) + bit * w + x % w)

/-- Modelled from the spec: `bitsWrite bits count src` writes the low `count`
bits of `src`, most significant first, at the writer's position and advances
the position by `count`. -/
def bitsWrite (bits : bitsBuffer) : Nat → Nat → bitsBuffer
  | 0, _ => bits
  | count + 1, src =>
    bitsWrite
      { bits with
        pData := putBit bits.pData bits.iData (src / 2 ^ count % 2)
        iData := bits.iData + 1 }
      count src

/-! ## Session state -/

/-- A delivery task started by `Service` with the `go` statement. -/
inductive Task where
  | write4udp : Task
  | write4tcppassive : String → String → Task
  deriving Repr, DecidableEq

/-- The fields of `RtpTransfer` that `Service`, `Send2data`, `fragmentation`
and `addRtpHeader` read or write.  `timerProcess` records whether the ticker
has been created, `udpconn` and `tcpconn` hold a connection handle when set,
and `started` lists the delivery tasks launched so far.  `Exit` also uses the
two signalling channels: `writestopClosed` tells whether `writestop` has been
closed, `quit` counts the completion signals sent on `quit` and not yet
received, and `timerStopped` tells whether the ticker has been stopped. -/
structure RtpTransfer where
  datasrc : String := ""
  protocol : Int
  payload : List (List Nat) := []
  cseq : Nat := 0
  ssrc : Nat
  udpconn : Option Nat := none
  tcpconn : Option Nat := none
  timerProcess : Bool := false
  started : List Task := []
  writestopClosed : Bool := false
  quit : Nat := 0
  timerStopped : Bool := false
  deriving Repr, DecidableEq

/-- The session built by `NewRtpService`; the random SSRC drawn at creation is
an argument. -/
def NewRtpService (src : String) (pro : Int) (rnd : Nat) : RtpTransfer :=
  { datasrc := src, protocol := pro, payload := [], cseq := 0, ssrc := rnd % 2 ^ 32 }

/-! ## Header codec -/

/-- The 12 header bytes that `addRtpHeader` writes with the bit writer, for the
already incremented sequence counter `cseq`. -/
def rtpHeaderBits (marker : Nat) (cseq : Nat) (curpts : Nat) (ssrc : Nat) : bitsBuffer :=
  let pack := List.replicate RTPHeaderLength.toNat 0
  let bits := bitsInit RTPHeaderLength.toNat pack
  let bits := bitsWrite bits 2 2
  let bits := bitsWrite bits 1 0
  let bits := bitsWrite bits 1 0
  let bits := bitsWrite bits 4 0
  let bits := bitsWrite bits 1 marker
  let bits := bitsWrite bits 7 96
  let bits := bitsWrite bits 16 cseq
  let bits := bitsWrite bits 32 curpts
  let bits := bitsWrite bits 32 ssrc
  bits

/-- The method `addRtpHeader`: the session after the call and the packet. -/
def addRtpHeader (c : Consts) (rtp : RtpTransfer) (data : List Nat) (marker : Nat)
    (curpts : Nat) : RtpTransfer × List Nat :=
  let rtp := { rtp with cseq := (rtp.cseq + 1) % 2 ^ 16 }
  let bits := rtpHeaderBits marker rtp.cseq curpts rtp.ssrc
  if rtp.protocol ≠ c.UDPTransfer then
    let lens : Int := (data.length : Int) + 12
    let rtpOvertcp : List Nat :=
      [((lens % 2 ^ 16) / 2 ^ 8 % 2 ^ 8).toNat, (lens % 2 ^ 16 % 2 ^ 8).toNat]
    let rtpOvertcp := rtpOvertcp ++ bits.pData
    (rtp, rtpOvertcp ++ data)
  else
    (rtp, bits.pData ++ data)

/-! ## Channel, slices and run status -/

/-- The statement `rtp.payload <- payload`: the packet is appended to the
packets sent on the channel. -/
def chanSend (rtp : RtpTransfer) (payload : List Nat) : RtpTransfer :=
  { rtp with payload := rtp.payload ++ [payload] }

/-- The Go slice expression `data[lo:hi]`; `none` stands for the run-time panic
on bounds that are out of range.  The capacity of a slice is taken to be its
length. -/
def slice (data : List Nat) (lo hi : Int) : Option (List Nat) :=
  if 0 ≤ lo ∧ lo ≤ hi ∧ hi ≤ (data.length : Int) then
    some ((data.take hi.toNat).drop lo.toNat)
  else
    none

/-- How a run of a loop or function ended. -/
inductive Status where
  | done : Status
  | panicked : Status
  | outOfFuel : Status
  deriving Repr, DecidableEq

/-- The session reached by a run, and how the run ended. -/
structure Run where
  rtp : RtpTransfer
  status : Status
  deriving Repr, DecidableEq

/-! ## Fragmenter -/

/-- The `for datalen > 0` loop of `fragmentation`, one iteration per unit of
fuel. -/
def fragLoop (c : Consts) (data : List Nat) (pts : Nat) (last : Nat) :
    Nat → RtpTransfer → Int → Int → Int → Nat → Run
  | 0, rtp, _, _, _, _ => { rtp := rtp, status := Status.outOfFuel }
  | fuel + 1, rtp, datalen, index, sendlen, marker =>
    if datalen > 0 then
      let marker := if datalen ≤ sendlen then 1 else marker
      let sendlen := if datalen ≤ sendlen then datalen else sendlen
      match slice data index (index + sendlen) with
      | none => { rtp := rtp, status := Status.panicked }
      | some chunk =>
        let r := addRtpHeader c rtp chunk (marker &&& last) pts
        let rtp := chanSend r.1 r.2
        fragLoop c data pts last fuel rtp (datalen - sendlen) (index + sendlen) sendlen marker
    else
      { rtp := rtp, status := Status.done }

/-- The method `fragmentation`.  The flag `last` is 0 or 1 at both call
sites. -/
def fragmentation (c : Consts) (fuel : Nat) (rtp : RtpTransfer) (data : List Nat)
    (pts : Nat) (last : Nat) : Run :=
  let datalen : Int := data.length
  if datalen + RTPHeaderLength ≤ c.RtpLoadLength then
    let r := addRtpHeader c rtp data 1 pts
    { rtp := chanSend r.1 r.2, status := Status.done }
  else
    fragLoop c data pts last fuel rtp datalen 0 (c.RtpLoadLength - RTPHeaderLength) 0

/-! ## Frame packetizer -/

/-- The `for lens > 0` loop of `Send2data`, one iteration per unit of fuel; `n`
is the fuel handed to each `fragmentation` call. -/
def sendLoop (c : Consts) (enc : encPSPacket) (n : Nat) (data : List Nat) (pts : Nat)
    (psSys : List Nat) : Nat → RtpTransfer → Int → Int → Run
  | 0, rtp, _, _ => { rtp := rtp, status := Status.outOfFuel }
  | fuel + 1, rtp, lens, index =>
    if lens > 0 then
      let pesload := if lens > c.PESLoadLength then c.PESLoadLength else lens
      match slice data index (index + pesload) with
      | none => { rtp := rtp, status := Status.panicked }
      | some chunk =>
        let pes := enc.addPESHeader chunk c.StreamIDVideo pesload pts pts
        let pes := if index = 0 then psSys ++ pes else pes
        let index := index + pesload
        let lens := lens - pesload
        let r :=
          if lens > 0 then fragmentation c n rtp pes pts 0
          else fragmentation c n rtp pes pts 1
        match r.status with
        | Status.done => sendLoop c enc n data pts psSys fuel r.rtp lens index
        | _ => r
    else
      { rtp := rtp, status := Status.done }

/-- The PS container that `Send2data` builds before its loop. -/
def psContainer (enc : encPSPacket) (key : Bool) (pts : Nat) : List Nat :=
  let psSys := enc.addPSHeader pts
  let psSys := if key then enc.addSystemHeader psSys 2048 512 else psSys
  enc.addMapHeader psSys

/-- The method `Send2data`. -/
def Send2data (c : Consts) (enc : encPSPacket) (fuel : Nat) (rtp : RtpTransfer)
    (data : List Nat) (key : Bool) (pts : Nat) : Run :=
  let psSys := psContainer enc key pts
  let lens : Int := data.length
  sendLoop c enc fuel data pts psSys fuel rtp lens 0

/-- A sequence of `Send2data` calls on one session; the run stops at the first
call that does not return. -/
def sendAll (c : Consts) (enc : encPSPacket) (fuel : Nat) :
    RtpTransfer → List (List Nat × Bool × Nat) → Run
  | rtp, [] => { rtp := rtp, status := Status.done }
  | rtp, au :: rest =>
    let r := Send2data c enc fuel rtp au.1 au.2.1 au.2.2
    match r.status with
    | Status.done => sendAll c enc fuel r.rtp rest
    | _ => r

/-- The loop variables `datalen`, `index`, `sendlen` and `marker` of
`fragmentation` after one iteration of its loop. -/
def fragVars (datalen index sendlen : Int) (marker : Nat) : Int × Int × Int × Nat :=
  let marker := if datalen ≤ sendlen then 1 else marker
  let sendlen := if datalen ≤ sendlen then datalen else sendlen
  (datalen - sendlen, index + sendlen, sendlen, marker)

/-- The loop variables `lens` and `index` of `Send2data` after one iteration of
its loop. -/
def sendVars (c : Consts) (lens index : Int) : Int × Int :=
  let pesload := if lens > c.PESLoadLength then c.PESLoadLength else lens
  (lens - pesload, index + pesload)

/-- One iteration of the loop of `Send2data`, as seen by its collaborators: the
arguments of the `addPESHeader` call (payload slice, stream id, length,
presentation and decode timestamp) and of the `fragmentation` call (the range
and the last flag). -/
structure PesCall where
  payload : List Nat
  streamID : Int
  payloadLen : Int
  pts : Nat
  dts : Nat
  range : List Nat
  last : Nat
  deriving Repr, DecidableEq

/-- The loop of `Send2data` once more, returning next to the run the record of
every iteration that reached its `fragmentation` call. -/
def sendLoopLog (c : Consts) (enc : encPSPacket) (n : Nat) (data : List Nat) (pts : Nat)
    (psSys : List Nat) : Nat → RtpTransfer → Int → Int → Run × List PesCall
  | 0, rtp, _, _ => ({ rtp := rtp, status := Status.outOfFuel }, [])
  | fuel + 1, rtp, lens, index =>
    if lens > 0 then
      let pesload := if lens > c.PESLoadLength then c.PESLoadLength else lens
      match slice data index (index + pesload) with
      | none => ({ rtp := rtp, status := Status.panicked }, [])
      | some chunk =>
        let pes := enc.addPESHeader chunk c.StreamIDVideo pesload pts pts
        let pes := if index = 0 then psSys ++ pes else pes
        let index := index + pesload
        let lens := lens - pesload
        let r :=
          if lens > 0 then fragmentation c n rtp pes pts 0
          else fragmentation c n rtp pes pts 1
        let call : PesCall :=
          { payload := chunk, streamID := c.StreamIDVideo, payloadLen := pesload,
            pts := pts, dts := pts, range := pes, last := if lens > 0 then 0 else 1 }
        match r.status with
        | Status.done =>
          ((sendLoopLog c enc n data pts psSys fuel r.rtp lens index).1,
            call :: (sendLoopLog c enc n data pts psSys fuel r.rtp lens index).2)
        | _ => (r, [call])
    else
      ({ rtp := rtp, status := Status.done }, [])

/-- The method `Send2data` with the record of its iterations. -/
def Send2dataLog (c : Consts) (enc : encPSPacket) (fuel : Nat) (rtp : RtpTransfer)
    (data : List Nat) (key : Bool) (pts : Nat) : Run × List PesCall :=
  let psSys := psContainer enc key pts
  let lens : Int := data.length
  sendLoopLog c enc fuel data pts psSys fuel rtp lens 0

/-! ## Session controller -/

/-- The method `Service`.  `dial` stands for `net.DialUDP` on the two
addresses: a connection handle or an error.  The result is the session after
the call and the returned error (`none` for `nil`). -/
def Service (c : Consts) (dial : String → Int → String → Int → Except String Nat)
    (rtp : RtpTransfer) (srcip dstip : String) (srcport dstport : Int) :
    RtpTransfer × Option String :=
  let rtp := if rtp.timerProcess = false then { rtp with timerProcess := true } else rtp
  if rtp.protocol = c.TCPTransferPassive then
    ({ rtp with
        started := rtp.started ++
          [Task.write4tcppassive (srcip ++ ":" ++ toString srcport)
            (dstip ++ ":" ++ toString dstport)] },
      none)
  else if rtp.protocol = c.TCPTransferActive then
    (rtp, none)
  else if rtp.protocol = c.UDPTransfer then
    match dial srcip srcport dstip dstport with
    | Except.error err => (rtp, some err)
    | Except.ok conn =>
      ({ rtp with udpconn := some conn, started := rtp.started ++ [Task.write4udp] }, none)
  else
    (rtp, some "unknown transfer way")

/-- How a call or a delivery task ends: it returns, it stays blocked on a
channel operation that nothing completes, or it panics. -/
inductive Ending where
  | returned : Ending
  | waiting : Ending
  | panicked : Ending
  deriving Repr, DecidableEq

/-- The method `Exit`: stop the ticker if there is one, `close(rtp.writestop)`,
then `<-rtp.quit`.  Closing a channel that is already closed panics; the
receive returns when a completion signal is in `quit` and waits otherwise. -/
def Exit (rtp : RtpTransfer) : RtpTransfer × Ending :=
  let rtp := if rtp.timerProcess then { rtp with timerStopped := true } else rtp
  if rtp.writestopClosed then
    (rtp, Ending.panicked)
  else
    let rtp := { rtp with writestopClosed := true }
    if rtp.quit = 0 then
      (rtp, Ending.waiting)
    else
      ({ rtp with quit := rtp.quit - 1 }, Ending.returned)

/-! ## Delivery tasks -/

/-- What one `select` of a delivery task receives: a packet from the queue
together with the result of writing it (bytes written, and whether the error
is non-nil), the closed queue, a tick of the timer, or the stop signal. -/
inductive Event where
  | packet : List Nat → Int → Bool → Event
  | queueClosed : Event
  | timerFired : Event
  | stopRequested : Event
  deriving Repr, DecidableEq

/-- What a delivery task does to the connection and to the channel `quit`. -/
inductive Action where
  | write : List Nat → Action
  | closeConn : Action
  | signalQuit : Action
  deriving Repr, DecidableEq

/-- The actions of a delivery task, in order, and how the task ended. -/
structure TaskRun where
  actions : List Action
  ending : Ending
  deriving Repr, DecidableEq

/-- The label `WRITESTOP` of both delivery tasks: close the connection, then
send on `quit`. -/
def writeStop (done : List Action) : TaskRun :=
  { actions := done ++ [Action.closeConn, Action.signalQuit], ending := Ending.returned }

/-- The loop of `write4udp` on the events its `select` receives; `done` holds the
actions so far.  When the events run out the task is waiting in `select`. -/
def udpLoop (udpconn : Option Nat) : List Action → List Event → TaskRun
  | done, [] => { actions := done, ending := Ending.waiting }
  | done, Event.packet data lens err :: rest =>
    if udpconn ≠ none then
      if err ∨ lens ≠ (data.length : Int) then
        writeStop (done ++ [Action.write data])
      else
        udpLoop udpconn (done ++ [Action.write data]) rest
    else
      udpLoop udpconn done rest
  | done, Event.queueClosed :: _ => writeStop done
  | done, Event.timerFired :: _ => writeStop done
  | done, Event.stopRequested :: _ => writeStop done

/-- The delivery task `write4udp`. -/
def write4udp (rtp : RtpTransfer) (events : List Event) : TaskRun :=
  udpLoop rtp.udpconn [] events

/-- The accept loop of `write4tcppassive` on the results of `listener.Accept`
(`none` for an error): the first connection accepted, if any. -/
def acceptLoop : List (Option Nat) → Option Nat
  | [] => none
  | none :: rest => acceptLoop rest
  | some conn :: _ => some conn

/-- The running loop of `write4tcppassive`.  With `rtp.tcpconn == nil` control
goes to `WRITESTOP`, where `Close` is called on the nil connection. -/
def tcpLoop (tcpconn : Option Nat) : List Action → List Event → TaskRun
  | done, events =>
    match tcpconn with
    | none => { actions := done, ending := Ending.panicked }
    | some _ =>
      match events with
      | [] => { actions := done, ending := Ending.waiting }
      | Event.packet data lens err :: rest =>
        if err ∨ lens ≠ (data.length : Int) then
          writeStop (done ++ [Action.write data])
        else
          tcpLoop tcpconn (done ++ [Action.write data]) rest
      | Event.queueClosed :: _ => writeStop done
      | Event.timerFired :: _ => writeStop done
      | Event.stopRequested :: _ => writeStop done

/-- The delivery task `write4tcppassive`.  `resolveErr` tells whether
`net.ResolveTCPAddr` fails, `accepts` lists the results of `listener.Accept`
(the error of `net.ListenTCP` is not looked at; after a failed listen every
accept fails).  While no connection has been accepted the task is waiting. -/
def write4tcppassive (resolveErr : Bool) (accepts : List (Option Nat))
    (events : List Event) : TaskRun :=
  if resolveErr then
    { actions := [], ending := Ending.returned }
  else
    match acceptLoop accepts with
    | none => { actions := [], ending := Ending.waiting }
    | some conn => tcpLoop (some conn) [] events

/-! ## Reading a packet back -/

/-- Number of bytes in front of the RTP header: the 2-byte length prefix unless
the transport is UDP. -/
def prefixLen (c : Consts) (protocol : Int) : Nat :=
  if protocol ≠ c.UDPTransfer then 2 else 0

/-- Big-endian value of a byte string. -/
def bigEndian (bs : List Nat) : Nat :=
  bs.foldl (fun acc b => acc * 256 + b) 0

/-- The 12 bytes of the RTP header of a packet. -/
def headerOf (c : Consts) (protocol : Int) (pkt : List Nat) : List Nat :=
  (pkt.drop (prefixLen c protocol)).take 12

/-- The bytes after the RTP header of a packet. -/
def payloadOf (c : Consts) (protocol : Int) (pkt : List Nat) : List Nat :=
  pkt.drop (prefixLen c protocol + 12)

/-- The marker bit: the top bit of header byte 1. -/
def markerOf (c : Consts) (protocol : Int) (pkt : List Nat) : Nat :=
  (headerOf c protocol pkt).getD 1 0 / 128

/-- The 16-bit sequence number: header bytes 2 and 3. -/
def seqOf (c : Consts) (protocol : Int) (pkt : List Nat) : Nat :=
  bigEndian (((headerOf c protocol pkt).drop 2).take 2)

/-- The SSRC field: header bytes 8 to 11. -/
def ssrcOf (c : Consts) (protocol : Int) (pkt : List Nat) : Nat :=
  bigEndian (((headerOf c protocol pkt).drop 8).take 4)

/-- The packets sent on the channel between two states of a session. -/
def sentBy (before after : RtpTransfer) : List (List Nat) :=
  after.payload.drop before.payload.length

/-! ## Closed forms used in the proofs -/

/-- The 12 header bytes in closed form. -/
def headerBytes (marker cseq curpts ssrc : Nat) : List Nat :=
  [128, marker % 2 * 128 + 96,
   cseq / 2 ^ 8 % 2 ^ 8, cseq % 2 ^ 8,
   curpts / 2 ^ 24 % 2 ^ 8, curpts / 2 ^ 16 % 2 ^ 8, curpts / 2 ^ 8 % 2 ^ 8, curpts % 2 ^ 8,
   ssrc / 2 ^ 24 % 2 ^ 8, ssrc / 2 ^ 16 % 2 ^ 8, ssrc / 2 ^ 8 % 2 ^ 8, ssrc % 2 ^ 8]

/-- The length prefix of a packet with `n` payload bytes, in closed form. -/
def lenPrefix (c : Consts) (protocol : Int) (n : Nat) : List Nat :=
  if protocol ≠ c.UDPTransfer then [(n + 12) % 65536 / 256, (n + 12) % 256] else []

/-- The packet with the given fields, in closed form. -/
def mkPacket (c : Consts) (protocol : Int) (ssrc cseq marker curpts : Nat)
    (data : List Nat) : List Nat :=
  lenPrefix c protocol data.length ++ headerBytes marker cseq curpts ssrc ++ data

/-- One `addRtpHeader` call followed by the channel send; the call is given as
payload, marker and timestamp. -/
def emit (c : Consts) (rtp : RtpTransfer) (x : List Nat × Nat × Nat) : RtpTransfer :=
  chanSend (addRtpHeader c rtp x.1 x.2.1 x.2.2).1 (addRtpHeader c rtp x.1 x.2.1 x.2.2).2

/-- A series of `addRtpHeader` calls, each followed by the channel send. -/
def emitAll (c : Consts) (rtp : RtpTransfer) (calls : List (List Nat × Nat × Nat)) :
    RtpTransfer :=
  calls.foldl (emit c) rtp

/-- The packets of a series of calls that starts at sequence counter `cseq`. -/
def pktsFrom (c : Consts) (protocol : Int) (ssrc : Nat) :
    Nat → List (List Nat × Nat × Nat) → List (List Nat)
  | _, [] => []
  | cseq, x :: xs =>
    mkPacket c protocol ssrc ((cseq + 1) % 65536) x.2.1 x.2.2 x.1
      :: pktsFrom c protocol ssrc ((cseq + 1) % 65536) xs

/-- The sequence counter after `n` increments. -/
def bump : Nat → Nat → Nat
  | 0, cseq => cseq
  | n + 1, cseq => bump n ((cseq + 1) % 65536)

/-- The calls made by the loop of `fragmentation` on the bytes `l` that remain,
for a chunk size `P`. -/
def chunkCalls (P pts last : Nat) : Nat → List Nat → List (List Nat × Nat × Nat)
  | 0, _ => []
  | n + 1, l =>
    if l.length = 0 then []
    else if l.length ≤ P then [(l, 1 &&& last, pts)]
    else (l.take P, 0 &&& last, pts) :: chunkCalls P pts last n (l.drop P)

/-- The records of the iterations of the loop of `Send2data` on the bytes `l`
that remain from position `index`, for a PES payload size `Q`. -/
def pesCalls (c : Consts) (enc : encPSPacket) (pts : Nat) (psSys : List Nat) (Q : Nat) :
    Nat → Nat → List Nat → List PesCall
  | 0, _, _ => []
  | n + 1, index, l =>
    if l.length = 0 then []
    else
      { payload := l.take Q
        streamID := c.StreamIDVideo
        payloadLen := ((min l.length Q : Nat) : Int)
        pts := pts
        dts := pts
        range :=
          if index = 0 then
            psSys ++ enc.addPESHeader (l.take Q) c.StreamIDVideo ((min l.length Q : Nat) : Int)
              pts pts
          else
            enc.addPESHeader (l.take Q) c.StreamIDVideo ((min l.length Q : Nat) : Int) pts pts
        last := if l.length ≤ Q then 1 else 0 }
        :: pesCalls c enc pts psSys Q n (index + Q) (l.drop Q)

/-! ## Sample data for the worked instances -/

/-- Sample constants: 16-byte RTP packets (4 payload bytes), 5-byte PES
payloads. -/
def sampleConsts : Consts :=
  { RtpLoadLength := 16, PESLoadLength := 5, StreamIDVideo := 224,
    UDPTransfer := 0, TCPTransferPassive := 2, TCPTransferActive := 1 }

/-- A sample encapsulator with one-byte headers. -/
def sampleEnc : encPSPacket :=
  { addPSHeader := fun _ => [186]
    addSystemHeader := fun b _ _ => b ++ [187]
    addMapHeader := fun b => b ++ [188]
    addPESHeader := fun d _ _ _ _ => 224 :: d }

/-- A fresh session in UDP mode. -/
def sampleUdp : RtpTransfer := { protocol := 0, ssrc := 16909060 }

/-- A session in passive TCP mode whose sequence counter is about to wrap. -/
def sampleTcp : RtpTransfer := { protocol := 2, ssrc := 16909060, cseq := 65534 }

/-- A `net.DialUDP` that succeeds. -/
def sampleDial : String → Int → String → Int → Except String Nat :=
  fun _ _ _ _ => Except.ok 7

/-- A UDP session whose delivery task has already sent its completion signal
(for instance after an idle timeout). -/
def sampleSignalled : RtpTransfer :=
  { protocol := 0, ssrc := 16909060, udpconn := some 7, timerProcess := true,
    started := [Task.write4udp], quit := 1 }

/-! ## The bit writer on whole bytes -/

theorem bitsWrite_zero (b : bitsBuffer) (v : Nat) : bitsWrite b 0 v = b := rfl

theorem bitsWrite_succ (b : bitsBuffer) (n v : Nat) :
    bitsWrite b (n + 1) v =
      bitsWrite ⟨b.iSize, b.iData + 1, putBit b.pData b.iData (v / 2 ^ n % 2)⟩ n v := rfl

theorem putBit_aligned (p : List Nat) (i j bit : Nat) (hj : j < 8) :
    putBit p (8 * i + j) bit =
      p.set i (p.getD i 0 / (2 * 2 ^ (7 - j)) * (2 * 2 ^ (7 - j)) + bit * 2 ^ (7 - j)
        + p.getD i 0 % 2 ^ (7 - j)) := by
  have h1 : (8 * i + j) / 8 = i := by omega
  have h2 : (8 * i + j) % 8 = j := by omega
  simp only [putBit, h1, h2]

theorem getD_set_self (p : List Nat) (i x : Nat) (hi : i < p.length) :
    (p.set i x).getD i 0 = x := by
  simp [List.getD, hi]

/-- Eight bits written at a byte boundary store the low byte of the value. -/
theorem bitsWrite_byte (sz i v : Nat) (p : List Nat) (hi : i < p.length)
    (hx : p.getD i 0 < 256) :
    bitsWrite ⟨sz, 8 * i, p⟩ 8 v = ⟨sz, 8 * i + 8, p.set i (v % 256)⟩ := by
  have e : ∀ b : bitsBuffer, bitsWrite b 8 v = bitsWrite b (0+1+1+1+1+1+1+1+1) v :=
    fun _ => rfl
  rw [e]
  simp only [bitsWrite_succ, bitsWrite_zero, Nat.add_assoc, Nat.reduceAdd]
  congr 1
  have h0 := putBit_aligned p i 0 (v / 2 ^ 7 % 2) (by omega)
  rw [Nat.add_zero] at h0
  rw [h0, putBit_aligned _ _ 1 _ (by omega), putBit_aligned _ _ 2 _ (by omega),
    putBit_aligned _ _ 3 _ (by omega), putBit_aligned _ _ 4 _ (by omega),
    putBit_aligned _ _ 5 _ (by omega), putBit_aligned _ _ 6 _ (by omega),
    putBit_aligned _ _ 7 _ (by omega)]
  simp only [List.set_set, getD_set_self, hi, List.length_set]
  congr 1
  generalize p.getD i 0 = x at hx
  norm_num
  omega

theorem bitsWrite_byte_at (sz k v : Nat) (p : List Nat) (hk : k % 8 = 0)
    (hi : k / 8 < p.length) (hx : p.getD (k / 8) 0 < 256) :
    bitsWrite ⟨sz, k, p⟩ 8 v = ⟨sz, k + 8, p.set (k / 8) (v % 256)⟩ := by
  have h := bitsWrite_byte sz (k / 8) v p hi hx
  have e : 8 * (k / 8) = k := by omega
  rw [e] at h
  exact h

/-- A field of `m + n` bits is its top `m` bits followed by its low `n` bits. -/
theorem bitsWrite_add (m n v : Nat) : ∀ b : bitsBuffer,
    bitsWrite b (m + n) v = bitsWrite (bitsWrite b m (v / 2 ^ n)) n v := by
  induction m with
  | zero => intro b; simp [bitsWrite_zero]
  | succ m ih =>
    intro b
    rw [show m + 1 + n = (m + n) + 1 by omega, bitsWrite_succ, ih, bitsWrite_succ]
    rw [Nat.div_div_eq_div_mul, ← pow_add, Nat.add_comm n m]

/-- Only the low `n` bits of the value matter to an `n`-bit write. -/
theorem bitsWrite_congr (n : Nat) : ∀ (b : bitsBuffer) (v w : Nat),
    v % 2 ^ n = w % 2 ^ n → bitsWrite b n v = bitsWrite b n w := by
  induction n with
  | zero => intro b v w _; rfl
  | succ n ih =>
    intro b v w h
    have h1 : v / 2 ^ n % 2 = w / 2 ^ n % 2 := by
      have := congrArg (fun x => x / 2 ^ n) h
      simp only [Nat.pow_succ, Nat.mod_mul_right_div_self] at this
      exact this
    have h2 : v % 2 ^ n = w % 2 ^ n := by
      have := congrArg (fun x => x % 2 ^ n) h
      simp only [Nat.pow_succ] at this
      rwa [Nat.mod_mul_right_mod, Nat.mod_mul_right_mod] at this
    rw [bitsWrite_succ, bitsWrite_succ, h1]
    exact ih _ v w h2

theorem bitsWrite_flags :
    bitsWrite (bitsWrite (bitsWrite (bitsWrite
      (bitsInit RTPHeaderLength.toNat (List.replicate RTPHeaderLength.toNat 0)) 2 2) 1 0) 1 0) 4 0
      = ⟨12, 8, [128, 0, 0, 0, 0, 0, 0, 0, 0, 0, 0, 0]⟩ := by
  decide

theorem bitsWrite_marker_pt (b : bitsBuffer) (marker : Nat) :
    bitsWrite (bitsWrite b 1 marker) 7 96 = bitsWrite b 8 (marker % 2 * 128 + 96) := by
  rw [show (8 : Nat) = 1 + 7 from rfl, bitsWrite_add]
  rw [bitsWrite_congr 1 b marker ((marker % 2 * 128 + 96) / 2 ^ 7) (by omega)]
  exact bitsWrite_congr 7 _ _ _ (by omega)

theorem bitsWrite_16 (b : bitsBuffer) (v : Nat) :
    bitsWrite b 16 v = bitsWrite (bitsWrite b 8 (v / 2 ^ 8)) 8 v := by
  rw [show (16 : Nat) = 8 + 8 from rfl, bitsWrite_add]

theorem bitsWrite_32 (b : bitsBuffer) (v : Nat) :
    bitsWrite b 32 v =
      bitsWrite (bitsWrite (bitsWrite (bitsWrite b 8 (v / 2 ^ 24)) 8 (v / 2 ^ 16)) 8
        (v / 2 ^ 8)) 8 v := by
  rw [show (32 : Nat) = 8 + 24 from rfl, bitsWrite_add,
    show (24 : Nat) = 8 + 16 from rfl, bitsWrite_add,
    show (16 : Nat) = 8 + 8 from rfl, bitsWrite_add]

/-- The header buffer of `addRtpHeader` in closed form. -/
theorem rtpHeaderBits_pData (marker cseq curpts ssrc : Nat) :
    (rtpHeaderBits marker cseq curpts ssrc).pData = headerBytes marker cseq curpts ssrc := by
  unfold rtpHeaderBits
  simp only [bitsWrite_flags, bitsWrite_marker_pt, bitsWrite_16, bitsWrite_32]
  simp [bitsWrite_byte_at, headerBytes]
  omega

/-- The result of `addRtpHeader` in closed form. -/
theorem addRtpHeader_eq (c : Consts) (rtp : RtpTransfer) (data : List Nat)
    (marker curpts : Nat) :
    addRtpHeader c rtp data marker curpts =
      ({ rtp with cseq := (rtp.cseq + 1) % 65536 },
        mkPacket c rtp.protocol rtp.ssrc ((rtp.cseq + 1) % 65536) marker curpts data) := by
  have h1 : ((((data.length : Int) + 12) % 2 ^ 16) / 2 ^ 8 % 2 ^ 8).toNat
      = (data.length + 12) % 65536 / 256 := by omega
  have h2 : (((data.length : Int) + 12) % 2 ^ 16 % 2 ^ 8).toNat
      = (data.length + 12) % 256 := by omega
  unfold addRtpHeader mkPacket lenPrefix
  simp only [rtpHeaderBits_pData, h1, h2]
  by_cases h : rtp.protocol = c.UDPTransfer <;> simp [h]

/-! ## Reading back a packet in closed form -/

theorem headerBytes_length (m s t x : Nat) : (headerBytes m s t x).length = 12 := rfl

theorem lenPrefix_length (c : Consts) (protocol : Int) (n : Nat) :
    (lenPrefix c protocol n).length = prefixLen c protocol := by
  unfold lenPrefix prefixLen
  split <;> rfl

theorem mkPacket_length (c : Consts) (protocol : Int) (ssrc s m t : Nat) (d : List Nat) :
    (mkPacket c protocol ssrc s m t d).length = prefixLen c protocol + 12 + d.length := by
  simp [mkPacket, lenPrefix_length, headerBytes_length]
  omega

theorem headerOf_mkPacket (c : Consts) (protocol : Int) (ssrc s m t : Nat) (d : List Nat) :
    headerOf c protocol (mkPacket c protocol ssrc s m t d) = headerBytes m s t ssrc := by
  unfold headerOf mkPacket
  rw [List.append_assoc, List.drop_left' (lenPrefix_length c protocol d.length)]
  rw [List.take_left' (headerBytes_length m s t ssrc)]

theorem payloadOf_mkPacket (c : Consts) (protocol : Int) (ssrc s m t : Nat) (d : List Nat) :
    payloadOf c protocol (mkPacket c protocol ssrc s m t d) = d := by
  unfold payloadOf mkPacket
  apply List.drop_left'
  simp [lenPrefix_length, headerBytes_length]

theorem markerOf_mkPacket (c : Consts) (protocol : Int) (ssrc s m t : Nat) (d : List Nat) :
    markerOf c protocol (mkPacket c protocol ssrc s m t d) = m % 2 := by
  unfold markerOf
  rw [headerOf_mkPacket]
  simp [headerBytes]
  omega

theorem seqOf_mkPacket (c : Consts) (protocol : Int) (ssrc s m t : Nat) (d : List Nat) :
    seqOf c protocol (mkPacket c protocol ssrc s m t d) = s % 65536 := by
  unfold seqOf
  rw [headerOf_mkPacket]
  simp [headerBytes, bigEndian]
  omega

theorem ssrcOf_mkPacket (c : Consts) (protocol : Int) (ssrc s m t : Nat) (d : List Nat) :
    ssrcOf c protocol (mkPacket c protocol ssrc s m t d) = ssrc % 2 ^ 32 := by
  unfold ssrcOf
  rw [headerOf_mkPacket]
  simp [headerBytes, bigEndian]
  omega

/-! ## Series of calls -/

theorem emit_eq (c : Consts) (rtp : RtpTransfer) (x : List Nat × Nat × Nat) :
    emit c rtp x =
      { rtp with
        cseq := (rtp.cseq + 1) % 65536
        payload := rtp.payload ++
          [mkPacket c rtp.protocol rtp.ssrc ((rtp.cseq + 1) % 65536) x.2.1 x.2.2 x.1] } := by
  simp [emit, addRtpHeader_eq, chanSend]

theorem emitAll_nil (c : Consts) (rtp : RtpTransfer) : emitAll c rtp [] = rtp := rfl

theorem emitAll_cons (c : Consts) (rtp : RtpTransfer) (x : List Nat × Nat × Nat)
    (xs : List (List Nat × Nat × Nat)) :
    emitAll c rtp (x :: xs) = emitAll c (emit c rtp x) xs := rfl

theorem emitAll_append (c : Consts) (rtp : RtpTransfer) (xs ys : List (List Nat × Nat × Nat)) :
    emitAll c rtp (xs ++ ys) = emitAll c (emitAll c rtp xs) ys := by
  simp [emitAll, List.foldl_append]

/-- A series of calls changes only the sequence counter and the channel. -/
theorem emitAll_eq (c : Consts) (calls : List (List Nat × Nat × Nat)) : ∀ rtp : RtpTransfer,
    emitAll c rtp calls =
      { rtp with
        cseq := bump calls.length rtp.cseq
        payload := rtp.payload ++ pktsFrom c rtp.protocol rtp.ssrc rtp.cseq calls } := by
  induction calls with
  | nil => intro rtp; simp [emitAll_nil, bump, pktsFrom]
  | cons x xs ih =>
    intro rtp
    rw [emitAll_cons, ih, emit_eq]
    simp [bump, pktsFrom]

theorem sentBy_emitAll (c : Consts) (rtp : RtpTransfer) (calls : List (List Nat × Nat × Nat)) :
    sentBy rtp (emitAll c rtp calls) = pktsFrom c rtp.protocol rtp.ssrc rtp.cseq calls := by
  simp [sentBy, emitAll_eq]

theorem pktsFrom_length (c : Consts) (protocol : Int) (ssrc : Nat)
    (calls : List (List Nat × Nat × Nat)) : ∀ s : Nat,
    (pktsFrom c protocol ssrc s calls).length = calls.length := by
  induction calls with
  | nil => intro s; rfl
  | cons x xs ih => intro s; simp [pktsFrom, ih]

theorem pktsFrom_append (c : Consts) (protocol : Int) (ssrc : Nat)
    (xs ys : List (List Nat × Nat × Nat)) : ∀ s : Nat,
    pktsFrom c protocol ssrc s (xs ++ ys) =
      pktsFrom c protocol ssrc s xs ++ pktsFrom c protocol ssrc (bump xs.length s) ys := by
  induction xs with
  | nil => intro s; simp [pktsFrom, bump]
  | cons x xs ih => intro s; simp [pktsFrom, bump, ih]

theorem bump_eq (n s : Nat) (h : 0 < n) : bump n s = (s + n) % 65536 := by
  induction n generalizing s with
  | zero => omega
  | succ n ih =>
    rcases Nat.eq_zero_or_pos n with h0 | h0
    · subst h0; simp [bump]
    · rw [bump, ih _ h0]; omega

theorem map_payloadOf_pktsFrom (c : Consts) (protocol : Int) (ssrc : Nat)
    (calls : List (List Nat × Nat × Nat)) : ∀ s : Nat,
    (pktsFrom c protocol ssrc s calls).map (payloadOf c protocol) = calls.map (fun x => x.1) := by
  induction calls with
  | nil => intro s; rfl
  | cons x xs ih => intro s; simp [pktsFrom, ih, payloadOf_mkPacket]

theorem map_markerOf_pktsFrom (c : Consts) (protocol : Int) (ssrc : Nat)
    (calls : List (List Nat × Nat × Nat)) : ∀ s : Nat,
    (pktsFrom c protocol ssrc s calls).map (markerOf c protocol)
      = calls.map (fun x => x.2.1 % 2) := by
  induction calls with
  | nil => intro s; rfl
  | cons x xs ih => intro s; simp [pktsFrom, ih, markerOf_mkPacket]

theorem getD_pktsFrom (c : Consts) (protocol : Int) (ssrc : Nat)
    (calls : List (List Nat × Nat × Nat)) : ∀ (s i : Nat), i < calls.length →
    (pktsFrom c protocol ssrc s calls).getD i [] =
      mkPacket c protocol ssrc ((s + 1 + i) % 65536) ((calls.getD i ([], 0, 0)).2.1)
        ((calls.getD i ([], 0, 0)).2.2) ((calls.getD i ([], 0, 0)).1) := by
  induction calls with
  | nil => intro s i h; simp at h
  | cons x xs ih =>
    intro s i h
    cases i with
    | zero => simp [pktsFrom]
    | succ i =>
      have h' : i < xs.length := by simpa using h
      simp only [pktsFrom, List.getD_cons_succ]
      rw [ih _ _ h']
      congr 1
      omega

/-- Consecutive packets of a series carry consecutive sequence numbers. -/
theorem chain_seqOf_pktsFrom (c : Consts) (protocol : Int) (ssrc : Nat)
    (calls : List (List Nat × Nat × Nat)) : ∀ s : Nat,
    List.Chain' (fun p q => seqOf c protocol q = (seqOf c protocol p + 1) % 65536)
      (pktsFrom c protocol ssrc s calls) := by
  induction calls with
  | nil => intro s; simp [pktsFrom]
  | cons x xs ih =>
    intro s
    cases xs with
    | nil => simp [pktsFrom]
    | cons y ys =>
      have := ih ((s + 1) % 65536)
      simp only [pktsFrom] at this ⊢
      refine List.Chain'.cons ?_ this
      simp [seqOf_mkPacket]

/-! ## Slices -/

theorem slice_some (data : List Nat) (lo hi : Int) (ch : List Nat)
    (h : slice data lo hi = some ch) :
    0 ≤ lo ∧ lo ≤ hi ∧ hi ≤ (data.length : Int) ∧ (ch.length : Int) = hi - lo
      ∧ ch = (data.take hi.toNat).drop lo.toNat := by
  unfold slice at h
  split at h
  · rename_i hb
    obtain ⟨h0, h1, h2⟩ := hb
    have e : ch = (data.take hi.toNat).drop lo.toNat := by
      simpa using h.symm
    refine ⟨h0, h1, h2, ?_, e⟩
    rw [e, List.length_drop, List.length_take]
    omega
  · simp at h

theorem slice_nat (data : List Nat) (lo n : Nat) (h : lo + n ≤ data.length) :
    slice data (lo : Int) ((lo : Int) + (n : Int)) = some ((data.drop lo).take n) := by
  unfold slice
  have hb : 0 ≤ (lo : Int) ∧ (lo : Int) ≤ (lo : Int) + (n : Int)
      ∧ (lo : Int) + (n : Int) ≤ (data.length : Int) := by omega
  rw [if_pos hb]
  have e1 : ((lo : Int) + (n : Int)).toNat = lo + n := by omega
  have e2 : (lo : Int).toNat = lo := by omega
  rw [e1, e2, List.drop_take]
  congr 2
  omega

/-! ## Every run is a series of `addRtpHeader` calls -/

theorem fragLoop_trace (c : Consts) (data : List Nat) (pts last : Nat) :
    ∀ (fuel : Nat) (rtp : RtpTransfer) (datalen index sendlen : Int) (marker : Nat),
    ∃ calls : List (List Nat × Nat × Nat),
      (fragLoop c data pts last fuel rtp datalen index sendlen marker).rtp = emitAll c rtp calls
      ∧ ∀ x ∈ calls, (x.1.length : Int) ≤ sendlen := by
  intro fuel
  induction fuel with
  | zero => intro rtp datalen index sendlen marker; exact ⟨[], rfl, by simp⟩
  | succ fuel ih =>
    intro rtp datalen index sendlen marker
    unfold fragLoop
    by_cases hd : datalen > 0
    · simp only [hd, if_true]
      cases hs : slice data index (index + if datalen ≤ sendlen then datalen else sendlen) with
      | none => exact ⟨[], rfl, by simp⟩
      | some chunk =>
        obtain ⟨_, _, _, hlen, _⟩ := slice_some _ _ _ _ hs
        simp only
        obtain ⟨calls, hc, hb⟩ := ih
          (chanSend
            (addRtpHeader c rtp chunk ((if datalen ≤ sendlen then 1 else marker) &&& last) pts).1
            (addRtpHeader c rtp chunk ((if datalen ≤ sendlen then 1 else marker) &&& last) pts).2)
          (datalen - if datalen ≤ sendlen then datalen else sendlen)
          (index + if datalen ≤ sendlen then datalen else sendlen)
          (if datalen ≤ sendlen then datalen else sendlen)
          (if datalen ≤ sendlen then 1 else marker)
        refine ⟨(chunk, (if datalen ≤ sendlen then 1 else marker) &&& last, pts) :: calls, ?_, ?_⟩
        · rw [hc, emitAll_cons]; rfl
        · intro x hx
          rcases List.mem_cons.mp hx with rfl | hx
          · simp only; split at hlen <;> omega
          · have := hb x hx
            split at this <;> omega
    · simp only [hd, if_false]
      exact ⟨[], rfl, by simp⟩

theorem fragmentation_trace (c : Consts) (fuel : Nat) (rtp : RtpTransfer) (data : List Nat)
    (pts last : Nat) :
    ∃ calls : List (List Nat × Nat × Nat),
      (fragmentation c fuel rtp data pts last).rtp = emitAll c rtp calls
      ∧ ∀ x ∈ calls, (x.1.length : Int) + 12 ≤ c.RtpLoadLength := by
  unfold fragmentation
  by_cases h : (data.length : Int) + RTPHeaderLength ≤ c.RtpLoadLength
  · simp only [h, if_true]
    refine ⟨[(data, 1, pts)], rfl, ?_⟩
    intro x hx
    simp only [List.mem_singleton] at hx
    subst hx
    simpa [RTPHeaderLength] using h
  · simp only [h, if_false]
    obtain ⟨calls, hc, hb⟩ := fragLoop_trace c data pts last fuel rtp (data.length : Int) 0
      (c.RtpLoadLength - RTPHeaderLength) 0
    refine ⟨calls, hc, ?_⟩
    intro x hx
    have := hb x hx
    simp only [RTPHeaderLength] at this
    omega

theorem sendLoop_trace (c : Consts) (enc : encPSPacket) (n : Nat) (data : List Nat) (pts : Nat)
    (psSys : List Nat) :
    ∀ (fuel : Nat) (rtp : RtpTransfer) (lens index : Int),
    ∃ calls : List (List Nat × Nat × Nat),
      (sendLoop c enc n data pts psSys fuel rtp lens index).rtp = emitAll c rtp calls
      ∧ ∀ x ∈ calls, (x.1.length : Int) + 12 ≤ c.RtpLoadLength := by
  intro fuel
  induction fuel with
  | zero => intro rtp lens index; exact ⟨[], rfl, by simp⟩
  | succ fuel ih =>
    intro rtp lens index
    unfold sendLoop
    by_cases hl : lens > 0
    · simp only [hl, if_true]
      cases hs : slice data index (index + if lens > c.PESLoadLength then c.PESLoadLength else lens) with
      | none => exact ⟨[], rfl, by simp⟩
      | some chunk =>
        simp only
        generalize hr : (if lens - (if lens > c.PESLoadLength then c.PESLoadLength else lens) > 0 then
            fragmentation c n rtp
              (if index = 0 then
                psSys ++ enc.addPESHeader chunk c.StreamIDVideo
                  (if lens > c.PESLoadLength then c.PESLoadLength else lens) pts pts
              else enc.addPESHeader chunk c.StreamIDVideo
                  (if lens > c.PESLoadLength then c.PESLoadLength else lens) pts pts) pts 0
          else
            fragmentation c n rtp
              (if index = 0 then
                psSys ++ enc.addPESHeader chunk c.StreamIDVideo
                  (if lens > c.PESLoadLength then c.PESLoadLength else lens) pts pts
              else enc.addPESHeader chunk c.StreamIDVideo
                  (if lens > c.PESLoadLength then c.PESLoadLength else lens) pts pts) pts 1) = r
        have hfr : ∃ calls : List (List Nat × Nat × Nat), r.rtp = emitAll c rtp calls
            ∧ ∀ x ∈ calls, (x.1.length : Int) + 12 ≤ c.RtpLoadLength := by
          rw [← hr]
          by_cases hq : lens - (if lens > c.PESLoadLength then c.PESLoadLength else lens) > 0
          · rw [if_pos hq]; exact fragmentation_trace _ _ _ _ _ _
          · rw [if_neg hq]; exact fragmentation_trace _ _ _ _ _ _
        obtain ⟨calls1, hc1, hb1⟩ := hfr
        cases hst : r.status with
        | done =>
          simp only
          obtain ⟨calls2, hc2, hb2⟩ := ih r.rtp
            (lens - if lens > c.PESLoadLength then c.PESLoadLength else lens)
            (index + if lens > c.PESLoadLength then c.PESLoadLength else lens)
          refine ⟨calls1 ++ calls2, ?_, ?_⟩
          · rw [hc2, hc1, emitAll_append]
          · intro x hx
            rcases List.mem_append.mp hx with hx | hx
            · exact hb1 x hx
            · exact hb2 x hx
        | panicked => exact ⟨calls1, hc1, hb1⟩
        | outOfFuel => exact ⟨calls1, hc1, hb1⟩
    · simp only [hl, if_false]
      exact ⟨[], rfl, by simp⟩

theorem Send2data_trace (c : Consts) (enc : encPSPacket) (fuel : Nat) (rtp : RtpTransfer)
    (data : List Nat) (key : Bool) (pts : Nat) :
    ∃ calls : List (List Nat × Nat × Nat),
      (Send2data c enc fuel rtp data key pts).rtp = emitAll c rtp calls
      ∧ ∀ x ∈ calls, (x.1.length : Int) + 12 ≤ c.RtpLoadLength :=
  sendLoop_trace c enc fuel data pts _ fuel rtp _ _

theorem sendAll_trace (c : Consts) (enc : encPSPacket) (fuel : Nat)
    (aus : List (List Nat × Bool × Nat)) : ∀ rtp : RtpTransfer,
    ∃ calls : List (List Nat × Nat × Nat),
      (sendAll c enc fuel rtp aus).rtp = emitAll c rtp calls
      ∧ ∀ x ∈ calls, (x.1.length : Int) + 12 ≤ c.RtpLoadLength := by
  induction aus with
  | nil => intro rtp; exact ⟨[], rfl, by simp⟩
  | cons au rest ih =>
    intro rtp
    unfold sendAll
    obtain ⟨calls1, hc1, hb1⟩ := Send2data_trace c enc fuel rtp au.1 au.2.1 au.2.2
    cases hst : (Send2data c enc fuel rtp au.1 au.2.1 au.2.2).status with
    | done =>
      simp only [hst]
      obtain ⟨calls2, hc2, hb2⟩ := ih (Send2data c enc fuel rtp au.1 au.2.1 au.2.2).rtp
      refine ⟨calls1 ++ calls2, ?_, ?_⟩
      · rw [hc2, hc1, emitAll_append]
      · intro x hx
        rcases List.mem_append.mp hx with hx | hx
        · exact hb1 x hx
        · exact hb2 x hx
    | panicked => simp only [hst]; exact ⟨calls1, hc1, hb1⟩
    | outOfFuel => simp only [hst]; exact ⟨calls1, hc1, hb1⟩

/-! ## The loop of `fragmentation` with a positive chunk size -/

theorem fragLoop_exit (c : Consts) (data : List Nat) (pts last fuel : Nat) (rtp : RtpTransfer)
    (datalen index sendlen : Int) (marker : Nat) (h : datalen ≤ 0) :
    fragLoop c data pts last (fuel + 1) rtp datalen index sendlen marker =
      { rtp := rtp, status := Status.done } := by
  unfold fragLoop
  have : ¬ datalen > 0 := by omega
  simp only [this, if_false]

theorem emitAll_singleton (c : Consts) (rtp : RtpTransfer) (x : List Nat × Nat × Nat) :
    emitAll c rtp [x] = emit c rtp x := rfl

/-- With a positive chunk size and enough fuel the loop returns, having made
the calls listed by `chunkCalls`. -/
theorem fragLoop_exact (c : Consts) (data : List Nat) (pts last P : Nat) (hP : 0 < P) :
    ∀ (fuel : Nat) (rtp : RtpTransfer) (index datalen : Nat),
      index + datalen = data.length → datalen < fuel →
      fragLoop c data pts last fuel rtp (datalen : Int) (index : Int) (P : Int) 0 =
        { rtp := emitAll c rtp (chunkCalls P pts last fuel (data.drop index)),
          status := Status.done } := by
  intro fuel
  induction fuel with
  | zero => intro rtp index datalen _ h; omega
  | succ fuel ih =>
    intro rtp index datalen hsum hfuel
    have hlen : (data.drop index).length = datalen := by
      rw [List.length_drop]; omega
    rcases Nat.eq_zero_or_pos datalen with h0 | hpos
    · subst h0
      rw [fragLoop_exit _ _ _ _ _ _ _ _ _ _ (by simp)]
      simp [chunkCalls, hlen, emitAll_nil]
    · unfold fragLoop chunkCalls
      have hgt : (datalen : Int) > 0 := by omega
      have hne : ¬ (data.drop index).length = 0 := by omega
      simp only [hgt, if_true, hne, if_false]
      by_cases hle : datalen ≤ P
      · have hle' : (datalen : Int) ≤ (P : Int) := by omega
        have hle'' : (data.drop index).length ≤ P := by omega
        simp only [hle', if_true, hle'']
        rw [slice_nat data index datalen (by omega)]
        simp only
        have htake : (data.drop index).take datalen = data.drop index :=
          List.take_of_length_le (by omega)
        rw [htake]
        obtain ⟨f, rfl⟩ : ∃ f, fuel = f + 1 := ⟨fuel - 1, by omega⟩
        rw [fragLoop_exit _ _ _ _ _ _ _ _ _ _ (by omega)]
        rfl
      · have hle' : ¬ (datalen : Int) ≤ (P : Int) := by omega
        have hle'' : ¬ (data.drop index).length ≤ P := by omega
        simp only [hle', if_false, hle'']
        rw [slice_nat data index P (by omega)]
        simp only
        have e1 : (datalen : Int) - (P : Int) = ((datalen - P : Nat) : Int) := by omega
        have e2 : (index : Int) + (P : Int) = ((index + P : Nat) : Int) := by omega
        rw [e1, e2, ih _ (index + P) (datalen - P) (by omega) (by omega)]
        rw [List.drop_drop, emitAll_cons]
        rfl

/-- The calls made by `fragmentation` for a chunk size `P`. -/
theorem fragmentation_exact (c : Consts) (fuel : Nat) (rtp : RtpTransfer) (data : List Nat)
    (pts last P : Nat) (hP : 0 < P) (hR : c.RtpLoadLength = RTPHeaderLength + (P : Int))
    (hfuel : data.length < fuel) :
    fragmentation c fuel rtp data pts last =
      { rtp := emitAll c rtp
          (if data.length ≤ P then [(data, 1, pts)] else chunkCalls P pts last fuel data),
        status := Status.done } := by
  unfold fragmentation
  by_cases h : data.length ≤ P
  · have h' : (data.length : Int) + RTPHeaderLength ≤ c.RtpLoadLength := by
      rw [hR]; simp only [RTPHeaderLength]; omega
    simp only [h', if_true, h]
    rfl
  · have h' : ¬ (data.length : Int) + RTPHeaderLength ≤ c.RtpLoadLength := by
      rw [hR]; simp only [RTPHeaderLength]; omega
    simp only [h', if_false, h]
    have e : c.RtpLoadLength - RTPHeaderLength = (P : Int) := by rw [hR]; omega
    rw [e]
    have := fragLoop_exact c data pts last P hP fuel rtp 0 data.length (by omega) hfuel
    simpa using this

/-! ## The chunks of a range -/

theorem chunkCalls_length (P pts last : Nat) (hP : 0 < P) :
    ∀ (n : Nat) (l : List Nat), l.length < n →
      (chunkCalls P pts last n l).length = (l.length + P - 1) / P := by
  intro n
  induction n with
  | zero => intro l h; omega
  | succ n ih =>
    intro l h
    unfold chunkCalls
    by_cases h0 : l.length = 0
    · simp only [h0, if_true, List.length_nil]
      rw [Nat.div_eq_of_lt (by omega)]
    · simp only [h0, if_false]
      by_cases hle : l.length ≤ P
      · simp only [hle, if_true, List.length_singleton]
        have e : l.length + P - 1 = (l.length - 1) + P := by omega
        rw [e, Nat.add_div_right _ hP, Nat.div_eq_of_lt (by omega)]
      · simp only [hle, if_false, List.length_cons]
        rw [ih (l.drop P) (by rw [List.length_drop]; omega), List.length_drop]
        have e : l.length + P - 1 = (l.length - P + P - 1) + P := by omega
        rw [e, Nat.add_div_right _ hP]

theorem chunkCalls_flatten (P pts last : Nat) (hP : 0 < P) :
    ∀ (n : Nat) (l : List Nat), l.length < n →
      ((chunkCalls P pts last n l).map (fun x => x.1)).flatten = l := by
  intro n
  induction n with
  | zero => intro l h; omega
  | succ n ih =>
    intro l h
    unfold chunkCalls
    by_cases h0 : l.length = 0
    · simp only [h0, if_true]
      simp [List.length_eq_zero.mp h0]
    · simp only [h0, if_false]
      by_cases hle : l.length ≤ P
      · simp [hle]
      · simp only [hle, if_false, List.map_cons, List.flatten_cons]
        rw [ih (l.drop P) (by rw [List.length_drop]; omega)]
        exact List.take_append_drop P l

/-- The `i`-th call of the loop carries the `i`-th chunk, and marker `1 &&& last`
exactly on the final chunk. -/
theorem chunkCalls_getD (P pts last : Nat) (hP : 0 < P) :
    ∀ (n : Nat) (l : List Nat) (i : Nat), l.length < n →
      i < (chunkCalls P pts last n l).length →
      (chunkCalls P pts last n l).getD i ([], 0, 0) =
        ((l.drop (i * P)).take P,
          if i + 1 = (chunkCalls P pts last n l).length then 1 &&& last else 0, pts) := by
  intro n
  induction n with
  | zero => intro l i h; omega
  | succ n ih =>
    intro l i h
    unfold chunkCalls
    by_cases h0 : l.length = 0
    · simp only [h0, if_true, List.length_nil]
      intro hi; omega
    · simp only [h0, if_false]
      by_cases hle : l.length ≤ P
      · simp only [hle, if_true, List.length_singleton]
        intro hi
        have hi0 : i = 0 := by omega
        subst hi0
        simp [List.take_of_length_le hle]
      · simp only [hle, if_false, List.length_cons]
        intro hi
        cases i with
        | zero =>
          have hne : ¬ (0 + 1 = (chunkCalls P pts last n (l.drop P)).length + 1) := by
            have := chunkCalls_length P pts last hP n (l.drop P)
              (by rw [List.length_drop]; omega)
            rw [List.length_drop] at this
            have hpos : 0 < (l.length - P + P - 1) / P := by
              apply Nat.div_pos <;> omega
            omega
          simp [hne]
        | succ i =>
          rw [List.getD_cons_succ, ih (l.drop P) i (by rw [List.length_drop]; omega) (by omega)]
          rw [List.drop_drop]
          have e : P + i * P = (i + 1) * P := by ring
          rw [e]
          simp

/-- Every chunk but the final one is `P` bytes long; the final chunk has between
1 and `P` bytes. -/
theorem chunkCalls_sizes (P pts last : Nat) (hP : 0 < P) :
    ∀ (n : Nat) (l : List Nat) (i : Nat), l.length < n →
      i < (chunkCalls P pts last n l).length →
      (i + 1 < (chunkCalls P pts last n l).length →
        ((chunkCalls P pts last n l).getD i ([], 0, 0)).1.length = P)
      ∧ (i + 1 = (chunkCalls P pts last n l).length →
        1 ≤ ((chunkCalls P pts last n l).getD i ([], 0, 0)).1.length
        ∧ ((chunkCalls P pts last n l).getD i ([], 0, 0)).1.length ≤ P) := by
  intro n
  induction n with
  | zero => intro l i h; omega
  | succ n ih =>
    intro l i h
    unfold chunkCalls
    by_cases h0 : l.length = 0
    · simp only [h0, if_true, List.length_nil]
      intro hi; omega
    · simp only [h0, if_false]
      by_cases hle : l.length ≤ P
      · simp only [hle, if_true, List.length_singleton]
        intro hi
        have hi0 : i = 0 := by omega
        subst hi0
        refine ⟨fun h => by omega, fun _ => ?_⟩
        simp only [List.getD_cons_zero]
        omega
      · simp only [hle, if_false, List.length_cons]
        intro hi
        cases i with
        | zero =>
          simp only [List.getD_cons_zero, List.length_take]
          refine ⟨fun _ => by omega, fun h1 => ?_⟩
          have := chunkCalls_length P pts last hP n (l.drop P)
            (by rw [List.length_drop]; omega)
          rw [List.length_drop] at this
          have hpos : 0 < (l.length - P + P - 1) / P := by
            apply Nat.div_pos <;> omega
          omega
        | succ i =>
          rw [List.getD_cons_succ]
          have := ih (l.drop P) i (by rw [List.length_drop]; omega) (by omega)
          refine ⟨fun h1 => this.1 (by omega), fun h1 => this.2 (by omega)⟩

/-! ## The header codec: claims C4 and C5 -/

/-- Claim C4. For every session, payload `d`, marker `m` in {0, 1} and timestamp
`t < 2 ^ 32` (and a 32-bit SSRC), the RTP header of the packet built by
`addRtpHeader` (bytes 0..11 in UDP mode, bytes 2..13 otherwise) is: byte 0 =
0x80, byte 1 = `128 * m + 96`, bytes 2..3 the big-endian incremented sequence
counter `(c + 1) mod 65536`, bytes 4..7 big-endian `t`, bytes 8..11 big-endian
SSRC; every header byte is below 256; the bytes after the header are `d`; and
in UDP mode the packet is exactly header followed by `d`, `12 + len d` bytes. -/
theorem addRtpHeader_layout (c : Consts) (rtp : RtpTransfer) (d : List Nat) (m t : Nat)
    (hm : m ≤ 1) (ht : t < 2 ^ 32) (hs : rtp.ssrc < 2 ^ 32) :
    headerOf c rtp.protocol (addRtpHeader c rtp d m t).2 =
        [128, 128 * m + 96,
         (rtp.cseq + 1) % 65536 / 256, (rtp.cseq + 1) % 65536 % 256,
         t / 2 ^ 24, t / 2 ^ 16 % 256, t / 2 ^ 8 % 256, t % 256,
         rtp.ssrc / 2 ^ 24, rtp.ssrc / 2 ^ 16 % 256, rtp.ssrc / 2 ^ 8 % 256, rtp.ssrc % 256]
    ∧ bigEndian (((headerOf c rtp.protocol (addRtpHeader c rtp d m t).2).drop 2).take 2)
        = (rtp.cseq + 1) % 65536
    ∧ bigEndian (((headerOf c rtp.protocol (addRtpHeader c rtp d m t).2).drop 4).take 4) = t
    ∧ bigEndian (((headerOf c rtp.protocol (addRtpHeader c rtp d m t).2).drop 8).take 4)
        = rtp.ssrc
    ∧ (∀ b ∈ headerOf c rtp.protocol (addRtpHeader c rtp d m t).2, b < 256)
    ∧ payloadOf c rtp.protocol (addRtpHeader c rtp d m t).2 = d
    ∧ (rtp.protocol = c.UDPTransfer →
        (addRtpHeader c rtp d m t).2
            = headerOf c rtp.protocol (addRtpHeader c rtp d m t).2 ++ d
          ∧ (addRtpHeader c rtp d m t).2.length = 12 + d.length) := by
  rw [addRtpHeader_eq]
  simp only [headerOf_mkPacket, payloadOf_mkPacket]
  have hm2 : m % 2 * 128 + 96 = 128 * m + 96 := by omega
  have e1 : t / 2 ^ 24 % 2 ^ 8 = t / 2 ^ 24 := by omega
  have e2 : rtp.ssrc / 2 ^ 24 % 2 ^ 8 = rtp.ssrc / 2 ^ 24 := by omega
  refine ⟨?_, ?_, ?_, ?_, ?_, trivial, ?_⟩
  · simp only [headerBytes, hm2, e1, e2]
    norm_num
    omega
  · simp [headerBytes, bigEndian]; omega
  · simp [headerBytes, bigEndian]; omega
  · simp [headerBytes, bigEndian]; omega
  · intro b hb
    simp only [headerBytes, List.mem_cons, List.mem_singleton, List.not_mem_nil, or_false] at hb
    rcases hb with h | h | h | h | h | h | h | h | h | h | h | h <;> omega
  · intro hu
    simp [mkPacket, lenPrefix, hu, headerBytes]
    omega

/-- Instance of claim C4 on a TCP session with counter 65534. -/
theorem addRtpHeader_layout_witness :
    (1 ≤ 1 ∧ 168496141 < 2 ^ 32 ∧ sampleTcp.ssrc < 2 ^ 32)
    ∧ headerOf sampleConsts sampleTcp.protocol
        (addRtpHeader sampleConsts sampleTcp [7, 8, 9] 1 168496141).2
      = [128, 128 * 1 + 96,
         (sampleTcp.cseq + 1) % 65536 / 256, (sampleTcp.cseq + 1) % 65536 % 256,
         168496141 / 2 ^ 24, 168496141 / 2 ^ 16 % 256, 168496141 / 2 ^ 8 % 256, 168496141 % 256,
         sampleTcp.ssrc / 2 ^ 24, sampleTcp.ssrc / 2 ^ 16 % 256, sampleTcp.ssrc / 2 ^ 8 % 256,
         sampleTcp.ssrc % 256] :=
  ⟨⟨by decide, by decide, by decide⟩,
    (addRtpHeader_layout sampleConsts sampleTcp [7, 8, 9] 1 168496141
      (by decide) (by decide) (by decide)).1⟩

/-- Claim C5, amended. For every session whose transport mode is not UDP and
every payload with `12 + len payload < 65536`, the first two bytes of the packet
built by `addRtpHeader`, read big-endian, equal `len packet - 2`, which is
`12 + len payload`. -/
theorem addRtpHeader_length_prefix (c : Consts) (rtp : RtpTransfer) (d : List Nat) (m t : Nat)
    (hmode : rtp.protocol ≠ c.UDPTransfer) (hlen : 12 + d.length < 65536) :
    bigEndian ((addRtpHeader c rtp d m t).2.take 2) = (addRtpHeader c rtp d m t).2.length - 2
    ∧ (addRtpHeader c rtp d m t).2.length - 2 = 12 + d.length := by
  rw [addRtpHeader_eq]
  simp only [mkPacket_length]
  simp [mkPacket, lenPrefix, hmode, prefixLen, bigEndian]
  omega

/-- Instance of the amended claim C5 on a three-byte payload. -/
theorem addRtpHeader_length_prefix_witness :
    (sampleTcp.protocol ≠ sampleConsts.UDPTransfer ∧ 12 + [7, 8, 9].length < 65536)
    ∧ bigEndian ((addRtpHeader sampleConsts sampleTcp [7, 8, 9] 1 5).2.take 2)
        = (addRtpHeader sampleConsts sampleTcp [7, 8, 9] 1 5).2.length - 2
    ∧ (addRtpHeader sampleConsts sampleTcp [7, 8, 9] 1 5).2.length - 2 = 12 + [7, 8, 9].length :=
  ⟨⟨by decide, by decide⟩,
    addRtpHeader_length_prefix sampleConsts sampleTcp [7, 8, 9] 1 5 (by decide) (by decide)⟩

/-- The length prefix is the 16-bit truncation of `12 + len payload`. -/
theorem addRtpHeader_prefix_mod (c : Consts) (rtp : RtpTransfer) (d : List Nat) (m t : Nat)
    (hmode : rtp.protocol ≠ c.UDPTransfer) :
    bigEndian ((addRtpHeader c rtp d m t).2.take 2) = (12 + d.length) % 65536
    ∧ (addRtpHeader c rtp d m t).2.length = 2 + 12 + d.length := by
  rw [addRtpHeader_eq]
  simp only [mkPacket_length]
  simp [mkPacket, lenPrefix, hmode, prefixLen, bigEndian]
  omega

/-- Claim C5 fails as stated: for a payload of 65524 bytes in TCP mode the two
prefix bytes encode 0 while the packet is 65536 bytes long after the prefix. -/
theorem addRtpHeader_length_prefix_wraps :
    sampleTcp.protocol ≠ sampleConsts.UDPTransfer
    ∧ bigEndian ((addRtpHeader sampleConsts sampleTcp (List.replicate 65524 0) 0 0).2.take 2) = 0
    ∧ (addRtpHeader sampleConsts sampleTcp (List.replicate 65524 0) 0 0).2.length - 2 = 65536 := by
  have hmode : sampleTcp.protocol ≠ sampleConsts.UDPTransfer := by decide
  have hl : (List.replicate 65524 0).length = 65524 := List.length_replicate _ _
  obtain ⟨h1, h2⟩ :=
    addRtpHeader_prefix_mod sampleConsts sampleTcp (List.replicate 65524 0) 0 0 hmode
  generalize List.replicate 65524 0 = d at hl h1 h2
  refine ⟨hmode, ?_, ?_⟩
  · rw [h1, hl]
  · rw [h2, hl]

theorem mem_pktsFrom (c : Consts) (protocol : Int) (ssrc : Nat)
    (calls : List (List Nat × Nat × Nat)) : ∀ (s : Nat) (p : List Nat),
    p ∈ pktsFrom c protocol ssrc s calls →
      ∃ x ∈ calls, ∃ s1 : Nat, p = mkPacket c protocol ssrc s1 x.2.1 x.2.2 x.1 := by
  induction calls with
  | nil => intro s p h; simp [pktsFrom] at h
  | cons x xs ih =>
    intro s p h
    simp only [pktsFrom, List.mem_cons] at h
    rcases h with h | h
    · exact ⟨x, List.mem_cons_self _ _, _, h⟩
    · obtain ⟨y, hy, s1, e⟩ := ih _ _ h
      exact ⟨y, List.mem_cons_of_mem _ hy, s1, e⟩

/-- The session after a non-empty series of calls. -/
theorem emitAll_eq_of_pos (c : Consts) (calls : List (List Nat × Nat × Nat))
    (rtp : RtpTransfer) (h : 0 < calls.length) :
    emitAll c rtp calls =
      { rtp with
        cseq := (rtp.cseq + (pktsFrom c rtp.protocol rtp.ssrc rtp.cseq calls).length) % 65536
        payload := rtp.payload ++ pktsFrom c rtp.protocol rtp.ssrc rtp.cseq calls } := by
  rw [emitAll_eq, pktsFrom_length, bump_eq _ _ h]

theorem one_and_of_le (last : Nat) (h : last ≤ 1) : 1 &&& last = last := by
  rw [Nat.one_and_eq_mod_two]; omega

theorem chunkCalls_pos (P pts last : Nat) (hP : 0 < P) (n : Nat) (l : List Nat)
    (hn : l.length < n) (hl : 0 < l.length) : 0 < (chunkCalls P pts last n l).length := by
  rw [chunkCalls_length P pts last hP n l hn]
  apply Nat.div_pos <;> omega

/-! ## The fragmenter: claims C3, C6, C7 and C8 -/

/-- Claim C3. For every byte range of length `M > 0` and either value of the
last flag, with `P = RtpLoadLength - RTPHeaderLength > 0` and enough fuel for
the loop (`M < fuel`), `fragmentation` returns having changed only the sequence
counter and the channel; it sends exactly `ceil (M / P)` packets, and their
payloads (RTP header and, outside UDP mode, the 2-byte length prefix removed),
concatenated in the order sent, are the original range. -/
theorem fragmentation_roundtrip (c : Consts) (fuel : Nat) (rtp : RtpTransfer)
    (data : List Nat) (pts last P : Nat)
    (hM : 0 < data.length) (hP : 0 < P)
    (hR : c.RtpLoadLength - RTPHeaderLength = (P : Int)) (hfuel : data.length < fuel) :
    ∃ pkts : List (List Nat),
      fragmentation c fuel rtp data pts last =
        { rtp := { rtp with
                    cseq := (rtp.cseq + pkts.length) % 65536
                    payload := rtp.payload ++ pkts },
          status := Status.done }
      ∧ pkts.length = (data.length + P - 1) / P
      ∧ (pkts.map (payloadOf c rtp.protocol)).flatten = data := by
  have hR' : c.RtpLoadLength = RTPHeaderLength + (P : Int) := by omega
  rw [fragmentation_exact c fuel rtp data pts last P hP hR' hfuel]
  by_cases h : data.length ≤ P
  · simp only [h, if_true]
    refine ⟨pktsFrom c rtp.protocol rtp.ssrc rtp.cseq [(data, 1, pts)], ?_, ?_, ?_⟩
    · rw [emitAll_eq_of_pos _ _ _ (by simp)]
    · rw [pktsFrom_length, List.length_singleton]
      have e : data.length + P - 1 = (data.length - 1) + P := by omega
      rw [e, Nat.add_div_right _ hP, Nat.div_eq_of_lt (by omega)]
    · rw [map_payloadOf_pktsFrom]; simp
  · simp only [h, if_false]
    refine ⟨pktsFrom c rtp.protocol rtp.ssrc rtp.cseq (chunkCalls P pts last fuel data),
      ?_, ?_, ?_⟩
    · rw [emitAll_eq_of_pos _ _ _ (chunkCalls_pos P pts last hP fuel data hfuel hM)]
    · rw [pktsFrom_length, chunkCalls_length P pts last hP fuel data hfuel]
    · rw [map_payloadOf_pktsFrom, chunkCalls_flatten P pts last hP fuel data hfuel]

/-- Instance of claim C3: nine bytes in chunks of four, TCP mode. -/
theorem fragmentation_roundtrip_witness :
    (0 < [1, 2, 3, 4, 5, 6, 7, 8, 9].length ∧ 0 < 4
      ∧ sampleConsts.RtpLoadLength - RTPHeaderLength = ((4 : Nat) : Int)
      ∧ [1, 2, 3, 4, 5, 6, 7, 8, 9].length < 10)
    ∧ ∃ pkts : List (List Nat),
      fragmentation sampleConsts 10 sampleTcp [1, 2, 3, 4, 5, 6, 7, 8, 9] 5 1 =
        { rtp := { sampleTcp with
                    cseq := (sampleTcp.cseq + pkts.length) % 65536
                    payload := sampleTcp.payload ++ pkts },
          status := Status.done }
      ∧ pkts.length = ([1, 2, 3, 4, 5, 6, 7, 8, 9].length + 4 - 1) / 4
      ∧ (pkts.map (payloadOf sampleConsts sampleTcp.protocol)).flatten
          = [1, 2, 3, 4, 5, 6, 7, 8, 9] :=
  ⟨⟨by decide, by decide, by decide, by decide⟩,
    fragmentation_roundtrip sampleConsts 10 sampleTcp [1, 2, 3, 4, 5, 6, 7, 8, 9] 5 1 4
      (by decide) (by decide) (by decide) (by decide)⟩

/-- Claim C6 fails on the code: a four-byte range fits one 16-byte packet and is
handed over with last flag 0, yet the single packet that `fragmentation` sends
has marker bit 1. -/
theorem fragmentation_single_packet_marker :
    (12 : Int) + ([1, 2, 3, 4] : List Nat).length ≤ sampleConsts.RtpLoadLength
    ∧ (fragmentation sampleConsts 1 sampleUdp [1, 2, 3, 4] 5 0).status = Status.done
    ∧ (sentBy sampleUdp (fragmentation sampleConsts 1 sampleUdp [1, 2, 3, 4] 5 0).rtp).map
        (markerOf sampleConsts sampleUdp.protocol) = [1] := by
  refine ⟨by decide, rfl, ?_⟩
  have h := fragmentation_exact sampleConsts 5 sampleUdp [1, 2, 3, 4] 5 0 4 (by decide)
    (by decide) (by decide)
  have e : fragmentation sampleConsts 1 sampleUdp [1, 2, 3, 4] 5 0
      = fragmentation sampleConsts 5 sampleUdp [1, 2, 3, 4] 5 0 := rfl
  rw [e, h]
  simp only [List.length_cons, List.length_nil]
  rw [if_pos (by decide), sentBy_emitAll, map_markerOf_pktsFrom]
  rfl

theorem list_length_three {α : Type} (l : List α) (d : α) (h : l.length = 3) :
    l = [l.getD 0 d, l.getD 1 d, l.getD 2 d] := by
  match l, h with
  | [a, b, e], _ => rfl

/-- Claim C7. For every byte range with `RTPHeaderLength + len > RtpLoadLength`
(and `P = RtpLoadLength - RTPHeaderLength > 0`), a last flag in {0, 1} and
enough fuel, `fragmentation` returns after sending one packet per chunk in the
original order: packet `i` carries bytes `i * P` up to `(i + 1) * P` of the
range, has marker 1 exactly when it is the final chunk and the last flag is 1,
and carries sequence number `cseq + 1 + i` modulo 65536.  In particular a range
of three chunks with last flag 1 yields markers `[0, 0, 1]` and the consecutive
sequence numbers `[n, n + 1, n + 2]` (modulo 65536). -/
theorem fragmentation_split_markers (c : Consts) (fuel : Nat) (rtp : RtpTransfer)
    (data : List Nat) (pts last P : Nat)
    (hP : 0 < P) (hR : c.RtpLoadLength - RTPHeaderLength = (P : Int))
    (hbig : c.RtpLoadLength < RTPHeaderLength + (data.length : Int))
    (hlast : last ≤ 1) (hfuel : data.length < fuel) :
    ∃ pkts : List (List Nat),
      fragmentation c fuel rtp data pts last =
        { rtp := { rtp with
                    cseq := (rtp.cseq + pkts.length) % 65536
                    payload := rtp.payload ++ pkts },
          status := Status.done }
      ∧ pkts.length = (data.length + P - 1) / P
      ∧ (∀ i : Nat, i < pkts.length →
          payloadOf c rtp.protocol (pkts.getD i []) = (data.drop (i * P)).take P
          ∧ markerOf c rtp.protocol (pkts.getD i [])
              = (if i + 1 = pkts.length ∧ last = 1 then 1 else 0)
          ∧ seqOf c rtp.protocol (pkts.getD i []) = (rtp.cseq + 1 + i) % 65536)
      ∧ (pkts.length = 3 → last = 1 →
          pkts.map (markerOf c rtp.protocol) = [0, 0, 1]
          ∧ pkts.map (seqOf c rtp.protocol)
              = [(rtp.cseq + 1) % 65536, ((rtp.cseq + 1) % 65536 + 1) % 65536,
                 ((rtp.cseq + 1) % 65536 + 2) % 65536]) := by
  have hR' : c.RtpLoadLength = RTPHeaderLength + (P : Int) := by omega
  have hgt : ¬ data.length ≤ P := by
    simp only [RTPHeaderLength] at hbig hR'; omega
  have hM : 0 < data.length := by omega
  rw [fragmentation_exact c fuel rtp data pts last P hP hR' hfuel]
  simp only [hgt, if_false]
  have hpos := chunkCalls_pos P pts last hP fuel data hfuel hM
  have hidx : ∀ i : Nat,
      i < (pktsFrom c rtp.protocol rtp.ssrc rtp.cseq (chunkCalls P pts last fuel data)).length →
        payloadOf c rtp.protocol
            ((pktsFrom c rtp.protocol rtp.ssrc rtp.cseq
              (chunkCalls P pts last fuel data)).getD i [])
          = (data.drop (i * P)).take P
        ∧ markerOf c rtp.protocol
            ((pktsFrom c rtp.protocol rtp.ssrc rtp.cseq
              (chunkCalls P pts last fuel data)).getD i [])
          = (if i + 1
                = (pktsFrom c rtp.protocol rtp.ssrc rtp.cseq
                    (chunkCalls P pts last fuel data)).length ∧ last = 1 then 1 else 0)
        ∧ seqOf c rtp.protocol
            ((pktsFrom c rtp.protocol rtp.ssrc rtp.cseq
              (chunkCalls P pts last fuel data)).getD i [])
          = (rtp.cseq + 1 + i) % 65536 := by
    intro i hi
    rw [pktsFrom_length] at hi ⊢
    rw [getD_pktsFrom _ _ _ _ _ _ hi, chunkCalls_getD P pts last hP fuel data i hfuel hi]
    refine ⟨payloadOf_mkPacket _ _ _ _ _ _ _, ?_, ?_⟩
    · rw [markerOf_mkPacket, one_and_of_le last hlast]
      by_cases h1 : i + 1 = (chunkCalls P pts last fuel data).length
      · simp only [h1, if_true, true_and]
        rcases Nat.le_one_iff_eq_zero_or_eq_one.mp hlast with h | h <;> simp [h]
      · simp [h1]
    · rw [seqOf_mkPacket]; omega
  refine ⟨pktsFrom c rtp.protocol rtp.ssrc rtp.cseq (chunkCalls P pts last fuel data),
    ?_, ?_, hidx, ?_⟩
  · rw [emitAll_eq_of_pos _ _ _ hpos]
  · rw [pktsFrom_length, chunkCalls_length P pts last hP fuel data hfuel]
  · intro h3 hl1
    have h0 := hidx 0 (by omega)
    have h1 := hidx 1 (by omega)
    have h2 := hidx 2 (by omega)
    rw [list_length_three _ [] h3]
    simp only [List.map_cons, List.map_nil]
    rw [h0.2.1, h0.2.2, h1.2.1, h1.2.2, h2.2.1, h2.2.2, h3]
    simp only [hl1]
    refine ⟨by simp, ?_⟩
    congr 1
    · congr 1
      · omega
      · congr 1; omega

/-- Instance of claim C7: three chunks, last flag 1, the counter wrapping. -/
theorem fragmentation_split_markers_witness :
    (0 < 4 ∧ sampleConsts.RtpLoadLength - RTPHeaderLength = ((4 : Nat) : Int)
      ∧ sampleConsts.RtpLoadLength
          < RTPHeaderLength + (([1, 2, 3, 4, 5, 6, 7, 8, 9] : List Nat).length : Int)
      ∧ 1 ≤ 1 ∧ [1, 2, 3, 4, 5, 6, 7, 8, 9].length < 10)
    ∧ ∃ pkts : List (List Nat),
      fragmentation sampleConsts 10 sampleTcp [1, 2, 3, 4, 5, 6, 7, 8, 9] 5 1 =
        { rtp := { sampleTcp with
                    cseq := (sampleTcp.cseq + pkts.length) % 65536
                    payload := sampleTcp.payload ++ pkts },
          status := Status.done }
      ∧ pkts.length = 3
      ∧ pkts.map (markerOf sampleConsts sampleTcp.protocol) = [0, 0, 1]
      ∧ pkts.map (seqOf sampleConsts sampleTcp.protocol) = [65535, 0, 1] := by
  refine ⟨⟨by decide, by decide, by decide, by decide, by decide⟩, ?_⟩
  obtain ⟨pkts, h1, h2, _, h4⟩ :=
    fragmentation_split_markers sampleConsts 10 sampleTcp [1, 2, 3, 4, 5, 6, 7, 8, 9] 5 1 4
      (by decide) (by decide) (by decide) (by decide) (by decide)
  have h3 : pkts.length = 3 := by rw [h2]; rfl
  exact ⟨pkts, h1, h3, (h4 h3 rfl).1, (h4 h3 rfl).2⟩

/-- Claim C8. For every byte range, either transport mode, any constants and any
fuel, each packet sent by `fragmentation` consists of the length prefix of its
mode, 12 header bytes and a payload with `RTPHeaderLength + len payload` at most
`RtpLoadLength`.  In the split case (with `P = RtpLoadLength - RTPHeaderLength
> 0` and enough fuel) the call returns, every chunk but the final one carries
exactly `P` payload bytes and the final chunk carries between 1 and `P`. -/
theorem fragmentation_packet_sizes (c : Consts) (fuel : Nat) (rtp : RtpTransfer)
    (data : List Nat) (pts last : Nat) :
    ((fragmentation c fuel rtp data pts last).rtp.payload
        = rtp.payload ++ sentBy rtp (fragmentation c fuel rtp data pts last).rtp
      ∧ ∀ p ∈ sentBy rtp (fragmentation c fuel rtp data pts last).rtp,
          p.length = prefixLen c rtp.protocol + 12 + (payloadOf c rtp.protocol p).length
          ∧ RTPHeaderLength + ((payloadOf c rtp.protocol p).length : Int) ≤ c.RtpLoadLength)
    ∧ ∀ P : Nat, 0 < P → c.RtpLoadLength - RTPHeaderLength = (P : Int) →
        c.RtpLoadLength < RTPHeaderLength + (data.length : Int) → data.length < fuel →
        ∃ pkts : List (List Nat),
          fragmentation c fuel rtp data pts last =
            { rtp := { rtp with
                        cseq := (rtp.cseq + pkts.length) % 65536
                        payload := rtp.payload ++ pkts },
              status := Status.done }
          ∧ 0 < pkts.length
          ∧ ∀ i : Nat, i < pkts.length →
              (i + 1 < pkts.length →
                (payloadOf c rtp.protocol (pkts.getD i [])).length = P)
              ∧ (i + 1 = pkts.length →
                1 ≤ (payloadOf c rtp.protocol (pkts.getD i [])).length
                ∧ (payloadOf c rtp.protocol (pkts.getD i [])).length ≤ P) := by
  constructor
  · obtain ⟨calls, hc, hb⟩ := fragmentation_trace c fuel rtp data pts last
    rw [hc, sentBy_emitAll]
    refine ⟨by rw [emitAll_eq], ?_⟩
    intro p hp
    obtain ⟨x, hx, s1, rfl⟩ := mem_pktsFrom _ _ _ _ _ _ hp
    rw [payloadOf_mkPacket, mkPacket_length]
    refine ⟨rfl, ?_⟩
    have := hb x hx
    simp only [RTPHeaderLength]
    omega
  · intro P hP hR hbig hfuel
    have hR' : c.RtpLoadLength = RTPHeaderLength + (P : Int) := by omega
    have hgt : ¬ data.length ≤ P := by
      simp only [RTPHeaderLength] at hbig hR'; omega
    have hM : 0 < data.length := by omega
    rw [fragmentation_exact c fuel rtp data pts last P hP hR' hfuel]
    simp only [hgt, if_false]
    have hpos := chunkCalls_pos P pts last hP fuel data hfuel hM
    refine ⟨pktsFrom c rtp.protocol rtp.ssrc rtp.cseq (chunkCalls P pts last fuel data),
      ?_, ?_, ?_⟩
    · rw [emitAll_eq_of_pos _ _ _ hpos]
    · rw [pktsFrom_length]; exact hpos
    · intro i hi
      rw [pktsFrom_length] at hi ⊢
      rw [getD_pktsFrom _ _ _ _ _ _ hi, payloadOf_mkPacket]
      exact chunkCalls_sizes P pts last hP fuel data i hfuel hi

/-- Instance of claim C8 in the split case: nine bytes in chunks of four. -/
theorem fragmentation_packet_sizes_witness :
    (0 < 4 ∧ sampleConsts.RtpLoadLength - RTPHeaderLength = ((4 : Nat) : Int)
      ∧ sampleConsts.RtpLoadLength
          < RTPHeaderLength + (([1, 2, 3, 4, 5, 6, 7, 8, 9] : List Nat).length : Int)
      ∧ [1, 2, 3, 4, 5, 6, 7, 8, 9].length < 10)
    ∧ ∃ pkts : List (List Nat),
      fragmentation sampleConsts 10 sampleUdp [1, 2, 3, 4, 5, 6, 7, 8, 9] 5 1 =
        { rtp := { sampleUdp with
                    cseq := (sampleUdp.cseq + pkts.length) % 65536
                    payload := sampleUdp.payload ++ pkts },
          status := Status.done }
      ∧ 0 < pkts.length
      ∧ ∀ i : Nat, i < pkts.length →
          (i + 1 < pkts.length →
            (payloadOf sampleConsts sampleUdp.protocol (pkts.getD i [])).length = 4)
          ∧ (i + 1 = pkts.length →
            1 ≤ (payloadOf sampleConsts sampleUdp.protocol (pkts.getD i [])).length
            ∧ (payloadOf sampleConsts sampleUdp.protocol (pkts.getD i [])).length ≤ 4) :=
  ⟨⟨by decide, by decide, by decide, by decide⟩,
    (fragmentation_packet_sizes sampleConsts 10 sampleUdp [1, 2, 3, 4, 5, 6, 7, 8, 9] 5 1).2 4
      (by decide) (by decide) (by decide) (by decide)⟩

theorem sendLoop_exit (c : Consts) (enc : encPSPacket) (n : Nat) (data : List Nat) (pts : Nat)
    (psSys : List Nat) (fuel : Nat) (rtp : RtpTransfer) (lens index : Int) (h : lens ≤ 0) :
    sendLoop c enc n data pts psSys (fuel + 1) rtp lens index =
      { rtp := rtp, status := Status.done } := by
  unfold sendLoop
  have : ¬ lens > 0 := by omega
  simp only [this, if_false]

/-- With `last = 0` every call of the loop of `fragmentation` has marker 0. -/
theorem chunkCalls_markers_zero (P pts : Nat) :
    ∀ (n : Nat) (l : List Nat),
      (chunkCalls P pts 0 n l).map (fun x => x.2.1 % 2)
        = List.replicate (chunkCalls P pts 0 n l).length 0 := by
  intro n
  induction n with
  | zero => intro l; rfl
  | succ n ih =>
    intro l
    unfold chunkCalls
    by_cases h0 : l.length = 0
    · simp [h0]
    · simp only [h0, if_false]
      by_cases hle : l.length ≤ P
      · simp [hle, List.replicate]
      · simp only [hle, if_false, List.map_cons, List.length_cons, List.replicate_succ]
        rw [ih]
        simp

/-- With `last = 1` the calls of the loop of `fragmentation` on a non-empty range
have marker 0 except the final one, which has marker 1. -/
theorem chunkCalls_markers_last (P pts : Nat) (hP : 0 < P) :
    ∀ (n : Nat) (l : List Nat), 0 < l.length → l.length < n →
      ∃ j : Nat, (chunkCalls P pts 1 n l).map (fun x => x.2.1 % 2)
        = List.replicate j 0 ++ [1] := by
  intro n
  induction n with
  | zero => intro l _ h; omega
  | succ n ih =>
    intro l hl hn
    unfold chunkCalls
    have h0 : ¬ l.length = 0 := by omega
    simp only [h0, if_false]
    by_cases hle : l.length ≤ P
    · exact ⟨0, by simp [hle]⟩
    · simp only [hle, if_false, List.map_cons]
      obtain ⟨j, hj⟩ := ih (l.drop P) (by rw [List.length_drop]; omega)
        (by rw [List.length_drop]; omega)
      refine ⟨j + 1, ?_⟩
      rw [hj]
      simp [List.replicate_succ]

/-- The calls of `fragmentation` with `last = 1`: marker 1 on the final call
only. -/
theorem fragCalls_markers_last (P pts : Nat) (hP : 0 < P) (n : Nat) (l : List Nat)
    (hn : l.length < n) :
    ∃ j : Nat,
      (if l.length ≤ P then [(l, 1, pts)] else chunkCalls P pts 1 n l).map
          (fun x => x.2.1 % 2)
        = List.replicate j 0 ++ [1] := by
  by_cases hle : l.length ≤ P
  · exact ⟨0, by simp [hle]⟩
  · simp only [hle, if_false]
    exact chunkCalls_markers_last P pts hP n l (by omega) hn

/-- The loop of `Send2data` on a non-empty remainder: it returns, and of the
calls it makes exactly the final one has marker 1, provided every full-size PES
unit is too long for a single packet. -/
theorem sendLoop_markers (c : Consts) (enc : encPSPacket) (data : List Nat) (pts : Nat)
    (psSys : List Nat) (P Q : Nat) (hP : 0 < P)
    (hR : c.RtpLoadLength = RTPHeaderLength + (P : Int))
    (hQ : 0 < Q) (hPES : c.PESLoadLength = (Q : Int))
    (hbig : ∀ d : List Nat, d.length = Q →
      P < (enc.addPESHeader d c.StreamIDVideo c.PESLoadLength pts pts).length) :
    ∀ (lens index : Nat), index + lens = data.length → 0 < lens →
      ∃ N : Nat, ∀ (rtp : RtpTransfer) (k n : Nat), lens < k → N ≤ n →
        (sendLoop c enc n data pts psSys k rtp (lens : Int) (index : Int)).status = Status.done
        ∧ ∃ calls : List (List Nat × Nat × Nat),
            (sendLoop c enc n data pts psSys k rtp (lens : Int) (index : Int)).rtp
              = emitAll c rtp calls
            ∧ ∃ j : Nat, calls.map (fun x => x.2.1 % 2) = List.replicate j 0 ++ [1] := by
  intro lens
  induction lens using Nat.strong_induction_on with
  | _ lens ih =>
    intro index hsum hpos
    have hgt : (lens : Int) > 0 := by omega
    by_cases hbigger : lens > Q
    · -- a full-size PES unit that is not the final one
      have hcond : (lens : Int) > c.PESLoadLength := by rw [hPES]; omega
      have hrest : (lens : Int) - (Q : Int) > 0 := by omega
      obtain ⟨N2, hN2⟩ := ih (lens - Q) (by omega) (index + Q) (by omega) (by omega)
      let range : List Nat :=
        if (index : Int) = 0 then
          psSys ++ enc.addPESHeader ((data.drop index).take Q) c.StreamIDVideo
            c.PESLoadLength pts pts
        else
          enc.addPESHeader ((data.drop index).take Q) c.StreamIDVideo c.PESLoadLength pts pts
      have hrange : P < range.length := by
        have hb := hbig ((data.drop index).take Q)
          (by rw [List.length_take, List.length_drop]; omega)
        show P < (if (index : Int) = 0 then _ else _ : List Nat).length
        split
        · rw [List.length_append]; omega
        · exact hb
      refine ⟨max (range.length + 1) N2, ?_⟩
      intro rtp k n hk hn
      obtain ⟨k', rfl⟩ : ∃ k', k = k' + 1 := ⟨k - 1, by omega⟩
      have hfrag := fragmentation_exact c n rtp range pts 0 P hP hR
        (by have := le_max_left (range.length + 1) N2; omega)
      rw [if_neg (by omega)] at hfrag
      have hstep : sendLoop c enc n data pts psSys (k' + 1) rtp (lens : Int) (index : Int)
          = sendLoop c enc n data pts psSys k'
              (emitAll c rtp (chunkCalls P pts 0 n range))
              ((lens - Q : Nat) : Int) ((index + Q : Nat) : Int) := by
        conv_lhs => unfold sendLoop
        simp only [hgt, if_true, hcond]
        rw [hPES, slice_nat data index Q (by omega)]
        simp only [hrest, if_true]
        rw [← hPES]
        show (match (fragmentation c n rtp range pts 0).status with
          | Status.done => sendLoop c enc n data pts psSys k'
              (fragmentation c n rtp range pts 0).rtp _ _
          | _ => fragmentation c n rtp range pts 0) = _
        rw [hfrag]
        simp only
        congr 1
        · rw [hPES]; omega
        · rw [hPES]; omega
      rw [hstep]
      obtain ⟨hst, calls2, hc2, j2, hj2⟩ :=
        hN2 (emitAll c rtp (chunkCalls P pts 0 n range)) k' n (by omega)
          (by have := le_max_right (range.length + 1) N2; omega)
      refine ⟨hst, chunkCalls P pts 0 n range ++ calls2, ?_, ?_⟩
      · rw [hc2, emitAll_append]
      · refine ⟨(chunkCalls P pts 0 n range).length + j2, ?_⟩
        rw [List.map_append, chunkCalls_markers_zero, hj2, ← List.append_assoc,
          List.replicate_add]
    · -- the final PES unit
      have hcond : ¬ (lens : Int) > c.PESLoadLength := by rw [hPES]; omega
      have hrest : ¬ (lens : Int) - (lens : Int) > 0 := by omega
      let range : List Nat :=
        if (index : Int) = 0 then
          psSys ++ enc.addPESHeader ((data.drop index).take lens) c.StreamIDVideo
            (lens : Int) pts pts
        else
          enc.addPESHeader ((data.drop index).take lens) c.StreamIDVideo (lens : Int) pts pts
      refine ⟨range.length + 1, ?_⟩
      intro rtp k n hk hn
      obtain ⟨k', rfl⟩ : ∃ k', k = k' + 1 := ⟨k - 1, by omega⟩
      obtain ⟨k'', rfl⟩ : ∃ k'', k' = k'' + 1 := ⟨k' - 1, by omega⟩
      have hfrag := fragmentation_exact c n rtp range pts 1 P hP hR (by omega)
      have hstep : sendLoop c enc n data pts psSys (k'' + 1 + 1) rtp (lens : Int) (index : Int)
          = { rtp := emitAll c rtp
                (if range.length ≤ P then [(range, 1, pts)] else chunkCalls P pts 1 n range),
              status := Status.done } := by
        conv_lhs => unfold sendLoop
        simp only [hgt, if_true, hcond, if_false]
        rw [slice_nat data index lens (by omega)]
        simp only [hrest, if_false]
        show (match (fragmentation c n rtp range pts 1).status with
          | Status.done => sendLoop c enc n data pts psSys (k'' + 1)
              (fragmentation c n rtp range pts 1).rtp _ _
          | _ => fragmentation c n rtp range pts 1) = _
        rw [hfrag]
        simp only
        rw [sendLoop_exit _ _ _ _ _ _ _ _ _ _ (by omega)]
      rw [hstep]
      exact ⟨rfl, _, rfl, fragCalls_markers_last P pts hP n range (by omega)⟩

/-! ## The frame packetizer: claims C1 and C2 -/

/-- Claim C1, amended. For every session and every non-empty access unit passed
to `Send2data`, with `RtpLoadLength > RTPHeaderLength`, `PESLoadLength > 0` and
every full-size PES unit too long for a single RTP packet, the call returns
(given enough fuel) and exactly one of the packets it sends has marker bit 1:
the last one; every earlier packet has marker bit 0. -/
theorem Send2data_marker_last (c : Consts) (enc : encPSPacket) (rtp : RtpTransfer)
    (data : List Nat) (key : Bool) (pts P Q : Nat)
    (hne : 0 < data.length)
    (hP : 0 < P) (hR : c.RtpLoadLength - RTPHeaderLength = (P : Int))
    (hQ : 0 < Q) (hPES : c.PESLoadLength = (Q : Int))
    (hbig : ∀ d : List Nat, d.length = Q →
      c.RtpLoadLength <
        RTPHeaderLength + ((enc.addPESHeader d c.StreamIDVideo c.PESLoadLength pts pts).length : Int)) :
    ∃ N : Nat, ∀ fuel : Nat, N ≤ fuel →
      (Send2data c enc fuel rtp data key pts).status = Status.done
      ∧ (Send2data c enc fuel rtp data key pts).rtp.payload
          = rtp.payload ++ sentBy rtp (Send2data c enc fuel rtp data key pts).rtp
      ∧ ∃ j : Nat,
          (sentBy rtp (Send2data c enc fuel rtp data key pts).rtp).map (markerOf c rtp.protocol)
            = List.replicate j 0 ++ [1] := by
  have hR' : c.RtpLoadLength = RTPHeaderLength + (P : Int) := by omega
  have hbig' : ∀ d : List Nat, d.length = Q →
      P < (enc.addPESHeader d c.StreamIDVideo c.PESLoadLength pts pts).length := by
    intro d hd
    have := hbig d hd
    omega
  obtain ⟨N, hN⟩ := sendLoop_markers c enc data pts (psContainer enc key pts) P Q hP hR' hQ hPES
    hbig' data.length 0 (by omega) hne
  refine ⟨max N (data.length + 1), ?_⟩
  intro fuel hfuel
  have h1 := le_max_left N (data.length + 1)
  have h2 := le_max_right N (data.length + 1)
  obtain ⟨hst, calls, hc, j, hj⟩ := hN rtp fuel fuel (by omega) (by omega)
  have e : Send2data c enc fuel rtp data key pts
      = sendLoop c enc fuel data pts (psContainer enc key pts) fuel rtp
          (data.length : Int) ((0 : Nat) : Int) := rfl
  rw [e, hc]
  refine ⟨hst, ?_, j, ?_⟩
  · rw [sentBy_emitAll, emitAll_eq]
  · rw [sentBy_emitAll, map_markerOf_pktsFrom, hj]

/-- Instance of the amended claim C1: an 11-byte key frame, PES payloads of 5
bytes, RTP payloads of 4 bytes. -/
theorem Send2data_marker_last_witness :
    (0 < [1, 2, 3, 4, 5, 6, 7, 8, 9, 10, 11].length
      ∧ 0 < 4 ∧ sampleConsts.RtpLoadLength - RTPHeaderLength = ((4 : Nat) : Int)
      ∧ 0 < 5 ∧ sampleConsts.PESLoadLength = ((5 : Nat) : Int)
      ∧ ∀ d : List Nat, d.length = 5 →
          sampleConsts.RtpLoadLength <
            RTPHeaderLength
              + ((sampleEnc.addPESHeader d sampleConsts.StreamIDVideo
                    sampleConsts.PESLoadLength 7 7).length : Int))
    ∧ ∃ N : Nat, ∀ fuel : Nat, N ≤ fuel →
      (Send2data sampleConsts sampleEnc fuel sampleUdp
          [1, 2, 3, 4, 5, 6, 7, 8, 9, 10, 11] true 7).status = Status.done
      ∧ (Send2data sampleConsts sampleEnc fuel sampleUdp
          [1, 2, 3, 4, 5, 6, 7, 8, 9, 10, 11] true 7).rtp.payload
          = sampleUdp.payload ++ sentBy sampleUdp
              (Send2data sampleConsts sampleEnc fuel sampleUdp
                [1, 2, 3, 4, 5, 6, 7, 8, 9, 10, 11] true 7).rtp
      ∧ ∃ j : Nat,
          (sentBy sampleUdp
              (Send2data sampleConsts sampleEnc fuel sampleUdp
                [1, 2, 3, 4, 5, 6, 7, 8, 9, 10, 11] true 7).rtp).map
            (markerOf sampleConsts sampleUdp.protocol)
            = List.replicate j 0 ++ [1] :=
  have hbig : ∀ d : List Nat, d.length = 5 →
      sampleConsts.RtpLoadLength <
        RTPHeaderLength
          + ((sampleEnc.addPESHeader d sampleConsts.StreamIDVideo
                sampleConsts.PESLoadLength 7 7).length : Int) := by
    intro d hd
    simp only [sampleConsts, sampleEnc, RTPHeaderLength, List.length_cons, hd]
    decide
  ⟨⟨by decide, by decide, by decide, by decide, by decide, hbig⟩,
    Send2data_marker_last sampleConsts sampleEnc sampleUdp
      [1, 2, 3, 4, 5, 6, 7, 8, 9, 10, 11] true 7 4 5
      (by decide) (by decide) (by decide) (by decide) (by decide) hbig⟩

/-- Claim C1 fails as stated: for the empty access unit `Send2data` returns
without sending any packet, so no packet of the call has marker bit 1. -/
theorem Send2data_empty_no_marker :
    (Send2data sampleConsts sampleEnc 4 sampleUdp [] true 7).status = Status.done
    ∧ sentBy sampleUdp (Send2data sampleConsts sampleEnc 4 sampleUdp [] true 7).rtp = []
    ∧ ¬ ∃ j : Nat,
        (sentBy sampleUdp (Send2data sampleConsts sampleEnc 4 sampleUdp [] true 7).rtp).map
          (markerOf sampleConsts sampleUdp.protocol) = List.replicate j 0 ++ [1] := by
  have e : sentBy sampleUdp (Send2data sampleConsts sampleEnc 4 sampleUdp [] true 7).rtp = [] :=
    rfl
  refine ⟨rfl, e, ?_⟩
  rw [e]
  rintro ⟨j, hj⟩
  simp at hj

/-- Claim C2. For every session state, any constants and every sequence of
`Send2data` calls, the packets sent by the calls are appended to the channel,
any two packets sent consecutively (inside one access unit or across two)
carry 16-bit sequence numbers `s` and `(s + 1) mod 65536`, the first of them
carries the session's counter plus one, and each `addRtpHeader` call moves the
counter to `(cseq + 1) mod 65536` (so from 65535 to 0) and writes that value
into the packet. -/
theorem sequence_numbers_consecutive (c : Consts) (enc : encPSPacket) (fuel : Nat)
    (rtp : RtpTransfer) (aus : List (List Nat × Bool × Nat)) :
    (sendAll c enc fuel rtp aus).rtp.payload
        = rtp.payload ++ sentBy rtp (sendAll c enc fuel rtp aus).rtp
    ∧ List.Chain' (fun p q => seqOf c rtp.protocol q = (seqOf c rtp.protocol p + 1) % 65536)
        (sentBy rtp (sendAll c enc fuel rtp aus).rtp)
    ∧ (∀ p ∈ (sentBy rtp (sendAll c enc fuel rtp aus).rtp).head?,
        seqOf c rtp.protocol p = (rtp.cseq + 1) % 65536)
    ∧ ∀ (d : List Nat) (m t : Nat),
        (addRtpHeader c rtp d m t).1.cseq = (rtp.cseq + 1) % 65536
        ∧ seqOf c rtp.protocol (addRtpHeader c rtp d m t).2 = (rtp.cseq + 1) % 65536 := by
  obtain ⟨calls, hc, _⟩ := sendAll_trace c enc fuel aus rtp
  rw [hc, sentBy_emitAll]
  refine ⟨by rw [emitAll_eq], chain_seqOf_pktsFrom _ _ _ _ _, ?_, ?_⟩
  · intro p hp
    cases calls with
    | nil => simp [pktsFrom] at hp
    | cons x xs =>
      simp only [pktsFrom, List.head?_cons, Option.mem_def, Option.some.injEq] at hp
      rw [← hp, seqOf_mkPacket]
      omega
  · intro d m t
    rw [addRtpHeader_eq]
    refine ⟨rfl, ?_⟩
    rw [seqOf_mkPacket]
    omega

/-! ## The session controller: claims C9 and C10 -/

/-- Claim C9 fails as stated: for a session in mode `TCPTransferActive`,
`Service` returns no error. -/
theorem Service_tcp_active_no_error :
    ({ sampleUdp with protocol := 1 } : RtpTransfer).protocol = sampleConsts.TCPTransferActive
    ∧ (Service sampleConsts sampleDial { sampleUdp with protocol := 1 }
        "10.0.0.1" "10.0.0.2" 5000 6000).2 = none := by
  exact ⟨rfl, rfl⟩

/-- Claim C9, amended. For a session created with transport mode
`TCPTransferActive` (a mode distinct from `TCPTransferPassive`), `Service`
returns nil, not an error, for every address and port argument; it starts no
delivery task and opens no connection. -/
theorem Service_tcp_active_returns_nil (c : Consts)
    (dial : String → Int → String → Int → Except String Nat) (rtp : RtpTransfer)
    (srcip dstip : String) (srcport dstport : Int)
    (hmode : rtp.protocol = c.TCPTransferActive)
    (hdist : c.TCPTransferActive ≠ c.TCPTransferPassive) :
    (Service c dial rtp srcip dstip srcport dstport).2 = none
    ∧ (Service c dial rtp srcip dstip srcport dstport).1.started = rtp.started
    ∧ (Service c dial rtp srcip dstip srcport dstport).1.udpconn = rtp.udpconn
    ∧ (Service c dial rtp srcip dstip srcport dstport).1.tcpconn = rtp.tcpconn := by
  unfold Service
  have h1 : rtp.protocol ≠ c.TCPTransferPassive := by rw [hmode]; exact hdist
  by_cases ht : rtp.timerProcess = false <;> simp [ht, h1, hmode, hdist]

/-- Instance of the amended claim C9. -/
theorem Service_tcp_active_returns_nil_witness :
    (({ sampleUdp with protocol := 1 } : RtpTransfer).protocol = sampleConsts.TCPTransferActive
      ∧ sampleConsts.TCPTransferActive ≠ sampleConsts.TCPTransferPassive)
    ∧ (Service sampleConsts sampleDial { sampleUdp with protocol := 1 }
        "10.0.0.1" "10.0.0.2" 5000 6000).2 = none
    ∧ (Service sampleConsts sampleDial { sampleUdp with protocol := 1 }
        "10.0.0.1" "10.0.0.2" 5000 6000).1.started = []
    ∧ (Service sampleConsts sampleDial { sampleUdp with protocol := 1 }
        "10.0.0.1" "10.0.0.2" 5000 6000).1.udpconn = none
    ∧ (Service sampleConsts sampleDial { sampleUdp with protocol := 1 }
        "10.0.0.1" "10.0.0.2" 5000 6000).1.tcpconn = none :=
  ⟨⟨rfl, by decide⟩,
    Service_tcp_active_returns_nil sampleConsts sampleDial { sampleUdp with protocol := 1 }
      "10.0.0.1" "10.0.0.2" 5000 6000 rfl (by decide)⟩

/-- Claim C10. For a session whose transport mode is none of `UDPTransfer`,
`TCPTransferPassive` and `TCPTransferActive`, `Service` returns the error
"unknown transfer way" for every address and port argument, starts no delivery
task and leaves `udpconn` and `tcpconn` as they were. -/
theorem Service_unknown_mode_fails (c : Consts)
    (dial : String → Int → String → Int → Except String Nat) (rtp : RtpTransfer)
    (srcip dstip : String) (srcport dstport : Int)
    (hudp : rtp.protocol ≠ c.UDPTransfer)
    (hpas : rtp.protocol ≠ c.TCPTransferPassive)
    (hact : rtp.protocol ≠ c.TCPTransferActive) :
    (Service c dial rtp srcip dstip srcport dstport).2 = some "unknown transfer way"
    ∧ (Service c dial rtp srcip dstip srcport dstport).1.started = rtp.started
    ∧ (Service c dial rtp srcip dstip srcport dstport).1.udpconn = rtp.udpconn
    ∧ (Service c dial rtp srcip dstip srcport dstport).1.tcpconn = rtp.tcpconn := by
  unfold Service
  by_cases ht : rtp.timerProcess = false <;> simp [ht, hudp, hpas, hact]

/-- Instance of claim C10 with mode 9. -/
theorem Service_unknown_mode_fails_witness :
    (({ sampleUdp with protocol := 9 } : RtpTransfer).protocol ≠ sampleConsts.UDPTransfer
      ∧ ({ sampleUdp with protocol := 9 } : RtpTransfer).protocol
          ≠ sampleConsts.TCPTransferPassive
      ∧ ({ sampleUdp with protocol := 9 } : RtpTransfer).protocol
          ≠ sampleConsts.TCPTransferActive)
    ∧ (Service sampleConsts sampleDial { sampleUdp with protocol := 9 }
        "10.0.0.1" "10.0.0.2" 5000 6000).2 = some "unknown transfer way"
    ∧ (Service sampleConsts sampleDial { sampleUdp with protocol := 9 }
        "10.0.0.1" "10.0.0.2" 5000 6000).1.started = []
    ∧ (Service sampleConsts sampleDial { sampleUdp with protocol := 9 }
        "10.0.0.1" "10.0.0.2" 5000 6000).1.udpconn = none
    ∧ (Service sampleConsts sampleDial { sampleUdp with protocol := 9 }
        "10.0.0.1" "10.0.0.2" 5000 6000).1.tcpconn = none :=
  ⟨⟨by decide, by decide, by decide⟩,
    Service_unknown_mode_fails sampleConsts sampleDial { sampleUdp with protocol := 9 }
      "10.0.0.1" "10.0.0.2" 5000 6000 (by decide) (by decide) (by decide)⟩

/-! ## The recorded loop of `Send2data` -/

/-- The recorded loop performs the run of `sendLoop`. -/
theorem sendLoopLog_fst (c : Consts) (enc : encPSPacket) (n : Nat) (data : List Nat) (pts : Nat)
    (psSys : List Nat) :
    ∀ (fuel : Nat) (rtp : RtpTransfer) (lens index : Int),
      (sendLoopLog c enc n data pts psSys fuel rtp lens index).1
        = sendLoop c enc n data pts psSys fuel rtp lens index := by
  intro fuel
  induction fuel with
  | zero => intro rtp lens index; rfl
  | succ fuel ih =>
    intro rtp lens index
    unfold sendLoopLog sendLoop
    by_cases hl : lens > 0
    · simp only [hl, if_true]
      cases hs : slice data index (index + if lens > c.PESLoadLength then c.PESLoadLength else lens) with
      | none => rfl
      | some chunk =>
        simp only
        split <;> simp_all
    · simp only [hl, if_false]

theorem Send2dataLog_fst (c : Consts) (enc : encPSPacket) (fuel : Nat) (rtp : RtpTransfer)
    (data : List Nat) (key : Bool) (pts : Nat) :
    (Send2dataLog c enc fuel rtp data key pts).1 = Send2data c enc fuel rtp data key pts :=
  sendLoopLog_fst c enc fuel data pts _ fuel rtp _ _

/-- After the first iteration (`index > 0`) every range handed to
`fragmentation` is the PES unit alone. -/
theorem sendLoopLog_later (c : Consts) (enc : encPSPacket) (n : Nat) (data : List Nat)
    (pts : Nat) (psSys : List Nat) (hPES : 0 < c.PESLoadLength) :
    ∀ (fuel : Nat) (rtp : RtpTransfer) (lens index : Int), 0 < index →
      ∀ x ∈ (sendLoopLog c enc n data pts psSys fuel rtp lens index).2,
        x.range = enc.addPESHeader x.payload x.streamID x.payloadLen x.pts x.dts := by
  intro fuel
  induction fuel with
  | zero => intro rtp lens index _ x hx; simp [sendLoopLog] at hx
  | succ fuel ih =>
    intro rtp lens index hidx x hx
    unfold sendLoopLog at hx
    by_cases hl : lens > 0
    · simp only [hl, if_true] at hx
      have hne : ¬ index = 0 := by omega
      have hpos : 0 < (if lens > c.PESLoadLength then c.PESLoadLength else lens) := by
        split <;> omega
      cases hs : slice data index (index + if lens > c.PESLoadLength then c.PESLoadLength else lens) with
      | none => simp [hs] at hx
      | some chunk =>
        simp only [hs, hne, if_false] at hx
        split at hx
        · simp only [List.mem_cons] at hx
          rcases hx with rfl | hx
          · rfl
          · exact ih _ _ _ (by omega) x hx
        · simp only [List.mem_singleton] at hx
          subst hx
          rfl
    · simp only [hl, if_false] at hx
      simp at hx

/-- One iteration of the recorded loop whose `fragmentation` call returns. -/
theorem sendLoopLog_step (c : Consts) (enc : encPSPacket) (n : Nat) (data : List Nat) (pts : Nat)
    (psSys : List Nat) (fuel : Nat) (rtp rtp1 : RtpTransfer) (lens index pesload : Int)
    (chunk : List Nat) (hl : lens > 0)
    (hp : pesload = if lens > c.PESLoadLength then c.PESLoadLength else lens)
    (hs : slice data index (index + pesload) = some chunk)
    (hf : fragmentation c n rtp
        (if index = 0 then psSys ++ enc.addPESHeader chunk c.StreamIDVideo pesload pts pts
          else enc.addPESHeader chunk c.StreamIDVideo pesload pts pts)
        pts (if lens - pesload > 0 then 0 else 1)
      = { rtp := rtp1, status := Status.done }) :
    sendLoopLog c enc n data pts psSys (fuel + 1) rtp lens index =
      ((sendLoopLog c enc n data pts psSys fuel rtp1 (lens - pesload) (index + pesload)).1,
        { payload := chunk, streamID := c.StreamIDVideo, payloadLen := pesload, pts := pts,
          dts := pts,
          range := if index = 0 then
              psSys ++ enc.addPESHeader chunk c.StreamIDVideo pesload pts pts
            else enc.addPESHeader chunk c.StreamIDVideo pesload pts pts,
          last := if lens - pesload > 0 then 0 else 1 }
          :: (sendLoopLog c enc n data pts psSys fuel rtp1 (lens - pesload)
                (index + pesload)).2) := by
  subst hp
  conv_lhs => unfold sendLoopLog
  simp only [hl, if_true, hs]
  by_cases hq : lens - (if lens > c.PESLoadLength then c.PESLoadLength else lens) > 0
  · simp only [hq, if_true] at hf ⊢
    rw [hf]
  · simp only [hq, if_false] at hf ⊢
    rw [hf]

theorem sendLoopLog_exit (c : Consts) (enc : encPSPacket) (n : Nat) (data : List Nat) (pts : Nat)
    (psSys : List Nat) (fuel : Nat) (rtp : RtpTransfer) (lens index : Int) (h : lens ≤ 0) :
    sendLoopLog c enc n data pts psSys (fuel + 1) rtp lens index =
      ({ rtp := rtp, status := Status.done }, []) := by
  unfold sendLoopLog
  have : ¬ lens > 0 := by omega
  simp only [this, if_false]

/-- With positive sizes and enough fuel the recorded loop returns, and its
record is the list `pesCalls`. -/
theorem sendLoopLog_exact (c : Consts) (enc : encPSPacket) (data : List Nat) (pts : Nat)
    (psSys : List Nat) (P Q : Nat) (hP : 0 < P)
    (hR : c.RtpLoadLength = RTPHeaderLength + (P : Int))
    (hQ : 0 < Q) (hPES : c.PESLoadLength = (Q : Int)) :
    ∀ (lens index : Nat), index + lens = data.length →
      ∃ N : Nat, ∀ (rtp : RtpTransfer) (k n : Nat), lens < k → N ≤ n →
        (sendLoopLog c enc n data pts psSys k rtp (lens : Int) (index : Int)).1.status
          = Status.done
        ∧ (sendLoopLog c enc n data pts psSys k rtp (lens : Int) (index : Int)).2
          = pesCalls c enc pts psSys Q k index (data.drop index) := by
  intro lens
  induction lens using Nat.strong_induction_on with
  | _ lens ih =>
    intro index hsum
    have hlen : (data.drop index).length = lens := by rw [List.length_drop]; omega
    rcases Nat.eq_zero_or_pos lens with h0 | hpos
    · subst h0
      refine ⟨0, ?_⟩
      intro rtp k n hk _
      obtain ⟨k', rfl⟩ : ∃ k', k = k' + 1 := ⟨k - 1, by omega⟩
      rw [sendLoopLog_exit _ _ _ _ _ _ _ _ _ _ (by simp)]
      simp [pesCalls, hlen]
    · have hgt : (lens : Int) > 0 := by omega
      have hidx : ((index : Int) = 0) ↔ (index = 0) := by omega
      by_cases hbigger : lens > Q
      · obtain ⟨N2, hN2⟩ := ih (lens - Q) (by omega) (index + Q) (by omega)
        have hp : (Q : Int) = if (lens : Int) > c.PESLoadLength then c.PESLoadLength
            else (lens : Int) := by
          rw [hPES, if_pos (by omega)]
        have hlast : (lens : Int) - (Q : Int) > 0 := by omega
        refine ⟨max ((psSys ++ enc.addPESHeader ((data.drop index).take Q) c.StreamIDVideo
            (Q : Int) pts pts).length + 1) N2, ?_⟩
        intro rtp k n hk hn
        obtain ⟨k', rfl⟩ : ∃ k', k = k' + 1 := ⟨k - 1, by omega⟩
        have hrl : (if (index : Int) = 0 then
              psSys ++ enc.addPESHeader ((data.drop index).take Q) c.StreamIDVideo (Q : Int)
                pts pts
            else enc.addPESHeader ((data.drop index).take Q) c.StreamIDVideo (Q : Int)
                pts pts).length < n := by
          have h1 := le_max_left ((psSys ++ enc.addPESHeader ((data.drop index).take Q)
            c.StreamIDVideo (Q : Int) pts pts).length + 1) N2
          have hap := List.length_append psSys (enc.addPESHeader ((data.drop index).take Q)
            c.StreamIDVideo (Q : Int) pts pts)
          split <;> omega
        have hfrag := fragmentation_exact c n rtp _ pts
          (if (lens : Int) - (Q : Int) > 0 then 0 else 1) P hP hR hrl
        rw [sendLoopLog_step c enc n data pts psSys k' rtp _ (lens : Int) (index : Int) (Q : Int)
          _ hgt hp (slice_nat data index Q (by omega)) hfrag]
        have e1 : (lens : Int) - (Q : Int) = ((lens - Q : Nat) : Int) := by omega
        have e2 : (index : Int) + (Q : Int) = ((index + Q : Nat) : Int) := by omega
        rw [e1, e2]
        obtain ⟨hst, hlog⟩ := hN2 (emitAll c rtp _) k' n (by omega)
          (by have := le_max_right ((psSys ++ enc.addPESHeader ((data.drop index).take Q)
                c.StreamIDVideo (Q : Int) pts pts).length + 1) N2; omega)
        refine ⟨hst, ?_⟩
        rw [hlog]
        conv_rhs => unfold pesCalls
        have hne : ¬ (data.drop index).length = 0 := by omega
        have hnle : ¬ (data.drop index).length ≤ Q := by omega
        have hmin : min (data.drop index).length Q = Q := by omega
        simp only [hne, if_false, hnle, hmin, List.drop_drop, hidx]
        simp only [gt_iff_lt]
        have hpos' : (0 : Int) < ((lens - Q : Nat) : Int) := by omega
        simp only [hpos', if_true]
      · have hp : (lens : Int) = if (lens : Int) > c.PESLoadLength then c.PESLoadLength
            else (lens : Int) := by
          rw [hPES, if_neg (by omega)]
        refine ⟨(psSys ++ enc.addPESHeader ((data.drop index).take lens) c.StreamIDVideo
            (lens : Int) pts pts).length + 1, ?_⟩
        intro rtp k n hk hn
        obtain ⟨k', rfl⟩ : ∃ k', k = k' + 1 := ⟨k - 1, by omega⟩
        obtain ⟨k'', rfl⟩ : ∃ k'', k' = k'' + 1 := ⟨k' - 1, by omega⟩
        have hrl : (if (index : Int) = 0 then
              psSys ++ enc.addPESHeader ((data.drop index).take lens) c.StreamIDVideo
                (lens : Int) pts pts
            else enc.addPESHeader ((data.drop index).take lens) c.StreamIDVideo (lens : Int)
                pts pts).length < n := by
          have hap := List.length_append psSys (enc.addPESHeader ((data.drop index).take lens)
            c.StreamIDVideo (lens : Int) pts pts)
          split <;> omega
        have hfrag := fragmentation_exact c n rtp _ pts
          (if (lens : Int) - (lens : Int) > 0 then 0 else 1) P hP hR hrl
        rw [sendLoopLog_step c enc n data pts psSys (k'' + 1) rtp _ (lens : Int) (index : Int)
          (lens : Int) _ hgt hp (slice_nat data index lens (by omega)) hfrag]
        rw [sendLoopLog_exit _ _ _ _ _ _ _ _ _ _ (by omega)]
        refine ⟨rfl, ?_⟩
        conv_rhs => unfold pesCalls
        have hne : ¬ (data.drop index).length = 0 := by omega
        have hle : (data.drop index).length ≤ Q := by omega
        have hmin : min (data.drop index).length Q = lens := by omega
        have htl : (data.drop index).take lens = (data.drop index).take Q := by
          rw [List.take_of_length_le (by omega), List.take_of_length_le hle]
        have hdrop : List.drop Q (List.drop index data) = [] :=
          List.drop_eq_nil_of_le hle
        simp only [hne, if_false, hle, if_true, hmin, hidx, htl, hdrop]
        have hz : ¬ ((lens : Int) - (lens : Int) > 0) := by omega
        simp only [hz, if_false]
        simp [pesCalls]

/-! ## The PES units of an access unit -/

theorem pesCalls_length (c : Consts) (enc : encPSPacket) (pts : Nat) (psSys : List Nat)
    (Q : Nat) (hQ : 0 < Q) :
    ∀ (n index : Nat) (l : List Nat), l.length < n →
      (pesCalls c enc pts psSys Q n index l).length = (l.length + Q - 1) / Q := by
  intro n
  induction n with
  | zero => intro index l h; omega
  | succ n ih =>
    intro index l h
    unfold pesCalls
    by_cases h0 : l.length = 0
    · simp only [h0, if_true, List.length_nil]
      rw [Nat.div_eq_of_lt (by omega)]
    · simp only [h0, if_false, List.length_cons]
      rw [ih (index + Q) (l.drop Q) (by rw [List.length_drop]; omega), List.length_drop]
      by_cases hle : l.length ≤ Q
      · have e : l.length + Q - 1 = (l.length - 1) + Q := by omega
        rw [e, Nat.add_div_right _ hQ, Nat.div_eq_of_lt (by omega), Nat.div_eq_of_lt (by omega)]
      · have e : l.length + Q - 1 = (l.length - Q + Q - 1) + Q := by omega
        rw [e, Nat.add_div_right _ hQ]

theorem pesCalls_flatten (c : Consts) (enc : encPSPacket) (pts : Nat) (psSys : List Nat)
    (Q : Nat) (hQ : 0 < Q) :
    ∀ (n index : Nat) (l : List Nat), l.length < n →
      ((pesCalls c enc pts psSys Q n index l).map PesCall.payload).flatten = l := by
  intro n
  induction n with
  | zero => intro index l h; omega
  | succ n ih =>
    intro index l h
    unfold pesCalls
    by_cases h0 : l.length = 0
    · simp only [h0, if_true]
      simp [List.length_eq_zero.mp h0]
    · simp only [h0, if_false, List.map_cons, List.flatten_cons]
      rw [ih (index + Q) (l.drop Q) (by rw [List.length_drop]; omega)]
      exact List.take_append_drop Q l

/-- The `i`-th record of the loop of `Send2data`. -/
theorem pesCalls_getElem (c : Consts) (enc : encPSPacket) (pts : Nat) (psSys : List Nat)
    (Q : Nat) (hQ : 0 < Q) :
    ∀ (n index : Nat) (l : List Nat) (i : Nat) (x : PesCall), l.length < n →
      (pesCalls c enc pts psSys Q n index l)[i]? = some x →
      x.payload = (l.drop (i * Q)).take Q
      ∧ (i + 1 < (pesCalls c enc pts psSys Q n index l).length → x.payload.length = Q)
      ∧ (i + 1 = (pesCalls c enc pts psSys Q n index l).length →
          1 ≤ x.payload.length ∧ x.payload.length ≤ Q)
      ∧ x.streamID = c.StreamIDVideo
      ∧ x.payloadLen = (x.payload.length : Int)
      ∧ x.pts = pts ∧ x.dts = pts
      ∧ x.range =
          (if index + i * Q = 0 then
            psSys ++ enc.addPESHeader x.payload x.streamID x.payloadLen x.pts x.dts
          else enc.addPESHeader x.payload x.streamID x.payloadLen x.pts x.dts)
      ∧ x.last = (if i + 1 = (pesCalls c enc pts psSys Q n index l).length then 1 else 0) := by
  intro n
  induction n with
  | zero => intro index l i x h; exact absurd h (by omega)
  | succ n ih =>
    intro index l i x h
    unfold pesCalls
    by_cases h0 : l.length = 0
    · simp only [h0, if_true]
      intro hx; simp at hx
    · have htl := pesCalls_length c enc pts psSys Q hQ n (index + Q) (l.drop Q)
        (by rw [List.length_drop]; omega)
      rw [List.length_drop] at htl
      simp only [h0, if_false, List.length_cons]
      cases i with
      | zero =>
        intro hx
        simp only [List.getElem?_cons_zero, Option.some.injEq] at hx
        subst hx
        have hlt : (List.take Q l).length = min l.length Q := by
          rw [List.length_take]; omega
        refine ⟨by simp, ?_, ?_, rfl, ?_, rfl, rfl, ?_, ?_⟩
        · intro h1
          simp only [hlt]
          by_cases hle : l.length ≤ Q
          · rw [Nat.div_eq_of_lt (by omega)] at htl; omega
          · omega
        · intro _
          simp only [hlt]
          omega
        · simp only [hlt]
        · simp only [hlt, Nat.zero_mul, Nat.add_zero]
        · by_cases hle : l.length ≤ Q
          · rw [Nat.div_eq_of_lt (by omega)] at htl
            simp [hle, htl]
          · have hpos : 0 < (l.length - Q + Q - 1) / Q := by
              apply Nat.div_pos <;> omega
            have hne : ¬ (0 + 1 = (pesCalls c enc pts psSys Q n (index + Q) (l.drop Q)).length + 1) := by
              omega
            simp only [hle, if_false, hne]
      | succ i =>
        intro hx
        rw [List.getElem?_cons_succ] at hx
        obtain ⟨h1, h2, h3, h4, h5, h6, h7, h8, h9⟩ :=
          ih (index + Q) (l.drop Q) i x (by rw [List.length_drop]; omega) hx
        have e : Q + i * Q = (i + 1) * Q := by ring
        have hno1 : ¬ (index + Q + i * Q = 0) := by omega
        have hno2 : ¬ (index + (i + 1) * Q = 0) := by
          rw [← e]; omega
        refine ⟨?_, ?_, ?_, h4, h5, h6, h7, ?_, ?_⟩
        · rw [h1, List.drop_drop, e]
        · intro hh; exact h2 (by omega)
        · intro hh; exact h3 (by omega)
        · rw [h8, if_neg hno1, if_neg hno2]
        · rw [h9]
          by_cases hh : i + 1 = (pesCalls c enc pts psSys Q n (index + Q) (l.drop Q)).length
          · rw [if_pos hh, if_pos (by omega)]
          · rw [if_neg hh, if_neg (by omega)]

/-! ## The frame packetizer: claims C11 and C12 -/

/-- Claim C11. For every non-empty access unit (with `PESLoadLength > 0` and at
least one unit of fuel) `Send2data` reaches a `fragmentation` call: the record of
its iterations is not empty.  The range of the first iteration is the PS
container followed by the first PES unit, which wraps the first
`PESLoadLength` bytes (or the whole unit when it is shorter); the range of every
later iteration is its PES unit alone.  The PS container is the pack header for
`pts`, then the system header exactly when the key flag is set, then the
program-map section. -/
theorem Send2data_first_range (c : Consts) (enc : encPSPacket) (fuel : Nat)
    (rtp : RtpTransfer) (data : List Nat) (key : Bool) (pts Q : Nat)
    (hL : 0 < data.length) (hQ : 0 < Q) (hPES : c.PESLoadLength = (Q : Int)) :
    (Send2dataLog c enc (fuel + 1) rtp data key pts).1
        = Send2data c enc (fuel + 1) rtp data key pts
    ∧ (∃ (first : PesCall) (rest : List PesCall),
        (Send2dataLog c enc (fuel + 1) rtp data key pts).2 = first :: rest
        ∧ first.payload = data.take Q
        ∧ first.streamID = c.StreamIDVideo
        ∧ first.payloadLen = (first.payload.length : Int)
        ∧ first.pts = pts ∧ first.dts = pts
        ∧ first.range
            = psContainer enc key pts
              ++ enc.addPESHeader first.payload first.streamID first.payloadLen first.pts
                  first.dts
        ∧ ∀ x ∈ rest,
            x.range = enc.addPESHeader x.payload x.streamID x.payloadLen x.pts x.dts)
    ∧ psContainer enc true pts
        = enc.addMapHeader (enc.addSystemHeader (enc.addPSHeader pts) 2048 512)
    ∧ psContainer enc false pts = enc.addMapHeader (enc.addPSHeader pts) := by
  refine ⟨Send2dataLog_fst _ _ _ _ _ _ _, ?_, rfl, rfl⟩
  have hPpos : 0 < c.PESLoadLength := by omega
  have hgt : (data.length : Int) > 0 := by omega
  have hpl : (if (data.length : Int) > c.PESLoadLength then c.PESLoadLength
      else (data.length : Int)) = ((min data.length Q : Nat) : Int) := by
    rw [hPES]; split <;> omega
  have hsl : slice data (0 : Int) ((0 : Int) + ((min data.length Q : Nat) : Int))
      = some (data.take Q) := by
    have := slice_nat data 0 (min data.length Q) (by omega)
    simp only [Nat.cast_zero, List.drop_zero] at this
    rw [this]
    congr 1
    by_cases hle : data.length ≤ Q
    · rw [List.take_of_length_le (by omega), List.take_of_length_le hle]
    · congr 1; omega
  have hlen : ((List.take Q data).length : Int) = ((min data.length Q : Nat) : Int) := by
    rw [List.length_take]; congr 1; omega
  unfold Send2dataLog
  simp only
  unfold sendLoopLog
  simp only [hgt, if_true, hpl, hsl]
  split
  · refine ⟨_, _, rfl, rfl, rfl, hlen.symm, rfl, rfl, rfl, ?_⟩
    intro x hx
    exact sendLoopLog_later c enc _ data pts _ hPpos _ _ _ _ (by omega) x hx
  · exact ⟨_, _, rfl, rfl, rfl, hlen.symm, rfl, rfl, rfl, by simp⟩

/-- Instance of claim C11: an 11-byte key frame with PES payloads of 5 bytes. -/
theorem Send2data_first_range_witness :
    (0 < [1, 2, 3, 4, 5, 6, 7, 8, 9, 10, 11].length ∧ 0 < 5
      ∧ sampleConsts.PESLoadLength = ((5 : Nat) : Int))
    ∧ ∃ (first : PesCall) (rest : List PesCall),
        (Send2dataLog sampleConsts sampleEnc (19 + 1) sampleUdp
            [1, 2, 3, 4, 5, 6, 7, 8, 9, 10, 11] true 7).2 = first :: rest
        ∧ first.payload = [1, 2, 3, 4, 5]
        ∧ first.range = [186, 187, 188, 224, 1, 2, 3, 4, 5]
        ∧ ∀ x ∈ rest,
            x.range = sampleEnc.addPESHeader x.payload x.streamID x.payloadLen x.pts x.dts := by
  refine ⟨⟨by decide, by decide, by decide⟩, ?_⟩
  obtain ⟨_, ⟨first, rest, h1, h2, h3, h4, h5, h6, h7, h8⟩, _, _⟩ :=
    Send2data_first_range sampleConsts sampleEnc 19 sampleUdp
      [1, 2, 3, 4, 5, 6, 7, 8, 9, 10, 11] true 7 5 (by decide) (by decide) (by decide)
  refine ⟨first, rest, h1, h2, ?_, h8⟩
  rw [h7, h2]
  rfl

/-- Claim C12. For every access unit of length `L`, with `PESLoadLength = Q > 0`
and `RtpLoadLength > RTPHeaderLength` (so that every `fragmentation` call
returns), `Send2data` given enough fuel returns after exactly `ceil (L / Q)`
iterations.  The slices given to `addPESHeader` are consecutive (`i`-th slice =
bytes `i * Q` up to `(i + 1) * Q`), each `Q` bytes long except a final one of 1
to `Q` bytes, and concatenate to the access unit; each is wrapped with stream id
`StreamIDVideo`, length equal to the slice length and `pts` as both timestamps;
the ranges reach `fragmentation` in this order, the first with the PS container
in front, with last flag 1 on the final range only. -/
theorem Send2data_pes_units (c : Consts) (enc : encPSPacket) (rtp : RtpTransfer)
    (data : List Nat) (key : Bool) (pts P Q : Nat)
    (hQ : 0 < Q) (hPES : c.PESLoadLength = (Q : Int))
    (hP : 0 < P) (hR : c.RtpLoadLength - RTPHeaderLength = (P : Int)) :
    ∃ N : Nat, ∀ fuel : Nat, N ≤ fuel →
      (Send2dataLog c enc fuel rtp data key pts).1 = Send2data c enc fuel rtp data key pts
      ∧ (Send2data c enc fuel rtp data key pts).status = Status.done
      ∧ (Send2dataLog c enc fuel rtp data key pts).2.length = (data.length + Q - 1) / Q
      ∧ ((Send2dataLog c enc fuel rtp data key pts).2.map PesCall.payload).flatten = data
      ∧ ∀ (i : Nat) (x : PesCall),
          (Send2dataLog c enc fuel rtp data key pts).2[i]? = some x →
          x.payload = (data.drop (i * Q)).take Q
          ∧ (i + 1 < (Send2dataLog c enc fuel rtp data key pts).2.length →
              x.payload.length = Q)
          ∧ (i + 1 = (Send2dataLog c enc fuel rtp data key pts).2.length →
              1 ≤ x.payload.length ∧ x.payload.length ≤ Q)
          ∧ x.streamID = c.StreamIDVideo
          ∧ x.payloadLen = (x.payload.length : Int)
          ∧ x.pts = pts ∧ x.dts = pts
          ∧ x.range =
              (if i = 0 then
                psContainer enc key pts
                  ++ enc.addPESHeader x.payload x.streamID x.payloadLen x.pts x.dts
              else enc.addPESHeader x.payload x.streamID x.payloadLen x.pts x.dts)
          ∧ x.last
              = (if i + 1 = (Send2dataLog c enc fuel rtp data key pts).2.length then 1
                  else 0) := by
  have hR' : c.RtpLoadLength = RTPHeaderLength + (P : Int) := by omega
  obtain ⟨N, hN⟩ := sendLoopLog_exact c enc data pts (psContainer enc key pts) P Q hP hR' hQ hPES
    data.length 0 (by omega)
  refine ⟨max N (data.length + 1), ?_⟩
  intro fuel hfuel
  have h1 := le_max_left N (data.length + 1)
  have h2 := le_max_right N (data.length + 1)
  have hlt : data.length < fuel := by omega
  obtain ⟨hst, hlog⟩ := hN rtp fuel fuel hlt (by omega)
  have e : Send2dataLog c enc fuel rtp data key pts
      = sendLoopLog c enc fuel data pts (psContainer enc key pts) fuel rtp
          (data.length : Int) ((0 : Nat) : Int) := rfl
  have hfst := Send2dataLog_fst c enc fuel rtp data key pts
  rw [← hfst, e, hlog, List.drop_zero]
  refine ⟨rfl, ?_, pesCalls_length c enc pts _ Q hQ fuel 0 data hlt,
    pesCalls_flatten c enc pts _ Q hQ fuel 0 data hlt, ?_⟩
  · rw [← hst]
  · intro i x hx
    have h := pesCalls_getElem c enc pts (psContainer enc key pts) Q hQ fuel 0 data i x hlt hx
    have hi : (0 + i * Q = 0) ↔ (i = 0) := by
      constructor
      · intro h0
        rcases Nat.eq_zero_or_pos i with hz | hz
        · exact hz
        · have : 0 < i * Q := Nat.mul_pos hz hQ
          omega
      · intro h0; subst h0; simp
    simp only [hi] at h
    exact h

/-- Instance of claim C12: 11 bytes in PES payloads of 5 bytes give 3 units. -/
theorem Send2data_pes_units_witness :
    (0 < 5 ∧ sampleConsts.PESLoadLength = ((5 : Nat) : Int) ∧ 0 < 4
      ∧ sampleConsts.RtpLoadLength - RTPHeaderLength = ((4 : Nat) : Int))
    ∧ ∃ N : Nat, ∀ fuel : Nat, N ≤ fuel →
      (Send2data sampleConsts sampleEnc fuel sampleUdp
          [1, 2, 3, 4, 5, 6, 7, 8, 9, 10, 11] true 7).status = Status.done
      ∧ (Send2dataLog sampleConsts sampleEnc fuel sampleUdp
          [1, 2, 3, 4, 5, 6, 7, 8, 9, 10, 11] true 7).2.length = 3
      ∧ ((Send2dataLog sampleConsts sampleEnc fuel sampleUdp
          [1, 2, 3, 4, 5, 6, 7, 8, 9, 10, 11] true 7).2.map PesCall.payload).flatten
          = [1, 2, 3, 4, 5, 6, 7, 8, 9, 10, 11] := by
  refine ⟨⟨by decide, by decide, by decide, by decide⟩, ?_⟩
  obtain ⟨N, hN⟩ := Send2data_pes_units sampleConsts sampleEnc sampleUdp
    [1, 2, 3, 4, 5, 6, 7, 8, 9, 10, 11] true 7 4 5 (by decide) (by decide) (by decide)
    (by decide)
  refine ⟨N, fun fuel hf => ?_⟩
  obtain ⟨_, h2, h3, h4, _⟩ := hN fuel hf
  exact ⟨h2, h3, h4⟩

theorem emitAll_ssrc (c : Consts) (rtp : RtpTransfer) (calls : List (List Nat × Nat × Nat)) :
    (emitAll c rtp calls).ssrc = rtp.ssrc ∧ (emitAll c rtp calls).protocol = rtp.protocol := by
  rw [emitAll_eq]; exact ⟨rfl, rfl⟩

theorem ssrcBytes_mkPacket (c : Consts) (protocol : Int) (ssrc s m t : Nat) (d : List Nat) :
    ((headerOf c protocol (mkPacket c protocol ssrc s m t d)).drop 8).take 4
      = [ssrc / 2 ^ 24 % 256, ssrc / 2 ^ 16 % 256, ssrc / 2 ^ 8 % 256, ssrc % 256] := by
  rw [headerOf_mkPacket]
  simp [headerBytes]

/-! ## Session invariants: claims C13, C17 and C18 -/

/-- Claim C13. For every session, any constants and fuel and every sequence of
`Send2data` calls, the session's `ssrc` and transport mode are unchanged, and
header bytes 8..11 of every packet sent are the big-endian bytes of the
session's `ssrc` (the SSRC field reads back as `ssrc mod 2 ^ 32`).  Neither
`Send2data` nor `fragmentation` nor `addRtpHeader` changes `ssrc` or the mode,
and the `ssrc` of a session made by `NewRtpService` is a 32-bit value, so the
field is that value itself. -/
theorem ssrc_constant (c : Consts) (enc : encPSPacket) (fuel : Nat) (rtp : RtpTransfer)
    (aus : List (List Nat × Bool × Nat)) :
    ((sendAll c enc fuel rtp aus).rtp.ssrc = rtp.ssrc
      ∧ (sendAll c enc fuel rtp aus).rtp.protocol = rtp.protocol)
    ∧ (∀ p ∈ sentBy rtp (sendAll c enc fuel rtp aus).rtp,
        ((headerOf c rtp.protocol p).drop 8).take 4
            = [rtp.ssrc / 2 ^ 24 % 256, rtp.ssrc / 2 ^ 16 % 256, rtp.ssrc / 2 ^ 8 % 256,
               rtp.ssrc % 256]
          ∧ ssrcOf c rtp.protocol p = rtp.ssrc % 2 ^ 32)
    ∧ (∀ (data : List Nat) (key : Bool) (pts : Nat),
        (Send2data c enc fuel rtp data key pts).rtp.ssrc = rtp.ssrc
          ∧ (Send2data c enc fuel rtp data key pts).rtp.protocol = rtp.protocol)
    ∧ (∀ (data : List Nat) (pts last : Nat),
        (fragmentation c fuel rtp data pts last).rtp.ssrc = rtp.ssrc
          ∧ (fragmentation c fuel rtp data pts last).rtp.protocol = rtp.protocol)
    ∧ (∀ (d : List Nat) (m t : Nat),
        (addRtpHeader c rtp d m t).1.ssrc = rtp.ssrc
          ∧ (addRtpHeader c rtp d m t).1.protocol = rtp.protocol)
    ∧ ∀ (src : String) (pro : Int) (rnd : Nat),
        (NewRtpService src pro rnd).ssrc = rnd % 2 ^ 32
          ∧ (NewRtpService src pro rnd).ssrc % 2 ^ 32 = (NewRtpService src pro rnd).ssrc := by
  obtain ⟨calls, hc, _⟩ := sendAll_trace c enc fuel aus rtp
  refine ⟨?_, ?_, ?_, ?_, ?_, ?_⟩
  · rw [hc]; exact emitAll_ssrc c rtp calls
  · rw [hc, sentBy_emitAll]
    intro p hp
    obtain ⟨x, _, s1, rfl⟩ := mem_pktsFrom _ _ _ _ _ _ hp
    exact ⟨ssrcBytes_mkPacket _ _ _ _ _ _ _, ssrcOf_mkPacket _ _ _ _ _ _ _⟩
  · intro data key pts
    obtain ⟨calls1, hc1, _⟩ := Send2data_trace c enc fuel rtp data key pts
    rw [hc1]; exact emitAll_ssrc c rtp calls1
  · intro data pts last
    obtain ⟨calls1, hc1, _⟩ := fragmentation_trace c fuel rtp data pts last
    rw [hc1]; exact emitAll_ssrc c rtp calls1
  · intro d m t
    rw [addRtpHeader_eq]; exact ⟨rfl, rfl⟩
  · intro src pro rnd
    refine ⟨rfl, ?_⟩
    show rnd % 2 ^ 32 % 2 ^ 32 = rnd % 2 ^ 32
    exact Nat.mod_mod _ _

/-- Claim C17. A session fresh from `NewRtpService` has sequence counter 0, and
whatever `Send2data` calls follow, the packet at position `i` (counting from 0)
carries sequence number `(i + 1) mod 65536`: the first packet carries 1, no
packet before the 65536th carries 0, and the 65536th carries 0. -/
theorem first_sequence_number (c : Consts) (enc : encPSPacket) (fuel : Nat) (src : String)
    (pro : Int) (rnd : Nat) (aus : List (List Nat × Bool × Nat)) :
    (NewRtpService src pro rnd).cseq = 0
    ∧ ∀ i : Nat,
        i < (sentBy (NewRtpService src pro rnd)
              (sendAll c enc fuel (NewRtpService src pro rnd) aus).rtp).length →
        seqOf c pro
            ((sentBy (NewRtpService src pro rnd)
              (sendAll c enc fuel (NewRtpService src pro rnd) aus).rtp).getD i [])
          = (i + 1) % 65536
        ∧ (i = 0 →
            seqOf c pro
              ((sentBy (NewRtpService src pro rnd)
                (sendAll c enc fuel (NewRtpService src pro rnd) aus).rtp).getD i []) = 1)
        ∧ (i + 1 < 65536 →
            seqOf c pro
              ((sentBy (NewRtpService src pro rnd)
                (sendAll c enc fuel (NewRtpService src pro rnd) aus).rtp).getD i []) ≠ 0)
        ∧ (i + 1 = 65536 →
            seqOf c pro
              ((sentBy (NewRtpService src pro rnd)
                (sendAll c enc fuel (NewRtpService src pro rnd) aus).rtp).getD i []) = 0) := by
  refine ⟨rfl, ?_⟩
  obtain ⟨calls, hc, _⟩ := sendAll_trace c enc fuel aus (NewRtpService src pro rnd)
  rw [hc, sentBy_emitAll]
  intro i hi
  rw [pktsFrom_length] at hi
  rw [getD_pktsFrom _ _ _ _ _ _ hi]
  have hp : (NewRtpService src pro rnd).protocol = pro := rfl
  have e : (NewRtpService src pro rnd).cseq = 0 := rfl
  rw [hp, e, seqOf_mkPacket]
  refine ⟨by omega, ?_, ?_, ?_⟩
  · intro h; subst h; rfl
  · intro h; omega
  · intro h; omega

/-- Instance of claim C17: the first packet of a fresh session carries 1. -/
theorem first_sequence_number_witness :
    0 < (sentBy (NewRtpService "cam" 0 7)
          (sendAll sampleConsts sampleEnc 20 (NewRtpService "cam" 0 7)
            [([1, 2, 3], true, 5)]).rtp).length
    ∧ seqOf sampleConsts 0
        ((sentBy (NewRtpService "cam" 0 7)
          (sendAll sampleConsts sampleEnc 20 (NewRtpService "cam" 0 7)
            [([1, 2, 3], true, 5)]).rtp).getD 0 []) = 1 :=
  have h : 0 < (sentBy (NewRtpService "cam" 0 7)
          (sendAll sampleConsts sampleEnc 20 (NewRtpService "cam" 0 7)
            [([1, 2, 3], true, 5)]).rtp).length := by decide
  ⟨h, ((first_sequence_number sampleConsts sampleEnc 20 "cam" 0 7
      [([1, 2, 3], true, 5)]).2 0 h).2.1 rfl⟩

/-- Claim C18. For the empty access unit, either key flag, any `pts`, any
constants and any fuel, `Send2data` leaves the session as it was: no packet is
sent and the sequence counter is unchanged; it never panics and, given one unit
of fuel, it returns. -/
theorem Send2data_empty (c : Consts) (enc : encPSPacket) (fuel : Nat) (rtp : RtpTransfer)
    (key : Bool) (pts : Nat) :
    (Send2data c enc fuel rtp [] key pts).rtp = rtp
    ∧ sentBy rtp (Send2data c enc fuel rtp [] key pts).rtp = []
    ∧ (Send2data c enc fuel rtp [] key pts).rtp.cseq = rtp.cseq
    ∧ (Send2data c enc fuel rtp [] key pts).status ≠ Status.panicked
    ∧ (Send2data c enc (fuel + 1) rtp [] key pts).status = Status.done := by
  have h1 : ∀ f : Nat, (Send2data c enc f rtp [] key pts).rtp = rtp
      ∧ (Send2data c enc f rtp [] key pts).status ≠ Status.panicked := by
    intro f
    cases f with
    | zero => exact ⟨rfl, by simp [Send2data, sendLoop]⟩
    | succ f =>
      have e : Send2data c enc (f + 1) rtp [] key pts = { rtp := rtp, status := Status.done } := by
        unfold Send2data
        exact sendLoop_exit _ _ _ _ _ _ _ _ _ _ (by simp)
      rw [e]
      exact ⟨rfl, by simp⟩
  have h2 : (Send2data c enc (fuel + 1) rtp [] key pts).status = Status.done := by
    unfold Send2data
    rw [sendLoop_exit _ _ _ _ _ _ _ _ _ _ (by simp)]
  refine ⟨(h1 fuel).1, ?_, ?_, (h1 fuel).2, h2⟩
  · rw [(h1 fuel).1]; simp [sentBy]
  · rw [(h1 fuel).1]

/-! ## Progress of the two loops -/

/-- One iteration of the loop of `fragmentation` moves the loop variables as
`fragVars` says; the slice taken ends at the new `index`. -/
theorem fragLoop_step (c : Consts) (data : List Nat) (pts last fuel : Nat) (rtp : RtpTransfer)
    (datalen index sendlen : Int) (marker : Nat) (chunk : List Nat) (hd : datalen > 0)
    (hs : slice data index (fragVars datalen index sendlen marker).2.1 = some chunk) :
    fragLoop c data pts last (fuel + 1) rtp datalen index sendlen marker =
      fragLoop c data pts last fuel
        (chanSend
          (addRtpHeader c rtp chunk ((fragVars datalen index sendlen marker).2.2.2 &&& last)
            pts).1
          (addRtpHeader c rtp chunk ((fragVars datalen index sendlen marker).2.2.2 &&& last)
            pts).2)
        (fragVars datalen index sendlen marker).1 (fragVars datalen index sendlen marker).2.1
        (fragVars datalen index sendlen marker).2.2.1
        (fragVars datalen index sendlen marker).2.2.2 := by
  simp only [fragVars] at hs ⊢
  conv_lhs => unfold fragLoop
  simp only [hd, if_true, hs]

/-- One iteration of the loop of `Send2data` whose `fragmentation` call returns
moves the loop variables as `sendVars` says. -/
theorem sendLoop_step (c : Consts) (enc : encPSPacket) (n : Nat) (data : List Nat) (pts : Nat)
    (psSys : List Nat) (fuel : Nat) (rtp rtp1 : RtpTransfer) (lens index : Int)
    (chunk : List Nat) (hl : lens > 0)
    (hs : slice data index (sendVars c lens index).2 = some chunk)
    (hf : fragmentation c n rtp
        (if index = 0 then
          psSys ++ enc.addPESHeader chunk c.StreamIDVideo
            (if lens > c.PESLoadLength then c.PESLoadLength else lens) pts pts
        else enc.addPESHeader chunk c.StreamIDVideo
            (if lens > c.PESLoadLength then c.PESLoadLength else lens) pts pts)
        pts (if (sendVars c lens index).1 > 0 then 0 else 1)
      = { rtp := rtp1, status := Status.done }) :
    sendLoop c enc n data pts psSys (fuel + 1) rtp lens index =
      sendLoop c enc n data pts psSys fuel rtp1 (sendVars c lens index).1
        (sendVars c lens index).2 := by
  simp only [sendVars] at hs hf ⊢
  conv_lhs => unfold sendLoop
  simp only [hl, if_true, hs]
  by_cases hq : lens - (if lens > c.PESLoadLength then c.PESLoadLength else lens) > 0
  · simp only [hq, if_true] at hf ⊢
    rw [hf]
  · simp only [hq, if_false] at hf ⊢
    rw [hf]

theorem fragVars_decrease (datalen index sendlen : Int) (marker : Nat)
    (hs : 0 < sendlen) (hd : 0 < datalen) :
    0 ≤ (fragVars datalen index sendlen marker).1
    ∧ (fragVars datalen index sendlen marker).1 < datalen
    ∧ 0 < (fragVars datalen index sendlen marker).2.2.1
    ∧ (fragVars datalen index sendlen marker).2.1 + (fragVars datalen index sendlen marker).1
        = index + datalen
    ∧ index ≤ (fragVars datalen index sendlen marker).2.1 := by
  simp only [fragVars]
  split <;> omega

theorem sendVars_decrease (c : Consts) (lens index : Int)
    (hp : 0 < c.PESLoadLength) (hl : 0 < lens) :
    0 ≤ (sendVars c lens index).1
    ∧ (sendVars c lens index).1 < lens
    ∧ (sendVars c lens index).2 + (sendVars c lens index).1 = index + lens
    ∧ index ≤ (sendVars c lens index).2 := by
  simp only [sendVars]
  split <;> omega

/-- With a zero chunk size the loop of `fragmentation` never ends on a non-empty
remainder: whatever the fuel, it runs out. -/
theorem fragLoop_stuck (c : Consts) (data : List Nat) (pts last : Nat) (datalen index : Int)
    (hd : 0 < datalen) (hi0 : 0 ≤ index) (hi1 : index ≤ (data.length : Int)) :
    ∀ (fuel : Nat) (rtp : RtpTransfer) (marker : Nat),
      (fragLoop c data pts last fuel rtp datalen index 0 marker).status = Status.outOfFuel := by
  intro fuel
  induction fuel with
  | zero => intro rtp marker; rfl
  | succ fuel ih =>
    intro rtp marker
    have hv : fragVars datalen index 0 marker = (datalen, index, 0, marker) := by
      simp only [fragVars]
      have : ¬ datalen ≤ 0 := by omega
      simp [this]
    have hs : slice data index (fragVars datalen index 0 marker).2.1
        = some ((data.take index.toNat).drop index.toNat) := by
      rw [hv]
      unfold slice
      rw [if_pos ⟨hi0, le_refl _, hi1⟩]
    rw [fragLoop_step c data pts last fuel rtp datalen index 0 marker _ (by omega) hs, hv]
    exact ih _ _

/-- With a positive chunk size no slice of the loop of `fragmentation` is out of
range. -/
theorem fragLoop_no_panic (c : Consts) (data : List Nat) (pts last : Nat) :
    ∀ (fuel : Nat) (rtp : RtpTransfer) (datalen index : Nat) (sendlen : Int) (marker : Nat),
      index + datalen = data.length → 0 < sendlen →
      (fragLoop c data pts last fuel rtp (datalen : Int) (index : Int) sendlen marker).status
        ≠ Status.panicked := by
  intro fuel
  induction fuel with
  | zero => intro rtp datalen index sendlen marker _ _; simp [fragLoop]
  | succ fuel ih =>
    intro rtp datalen index sendlen marker hsum hs
    rcases Nat.eq_zero_or_pos datalen with h0 | hpos
    · subst h0
      rw [fragLoop_exit _ _ _ _ _ _ _ _ _ _ (by simp)]
      simp
    · have hd : (datalen : Int) > 0 := by omega
      obtain ⟨h1, h2, h3, h4, h5⟩ := fragVars_decrease (datalen : Int) (index : Int) sendlen
        marker hs (by omega)
      obtain ⟨m, hm⟩ : ∃ m : Nat, (fragVars (datalen : Int) (index : Int) sendlen marker).2.2.1
          = (m : Int) := ⟨_, (Int.toNat_of_nonneg (le_of_lt h3)).symm⟩
      have hidx : (fragVars (datalen : Int) (index : Int) sendlen marker).2.1
          = (index : Int) + (m : Int) := by
        rw [← hm]; simp only [fragVars]
      have hdl : (fragVars (datalen : Int) (index : Int) sendlen marker).1
          = ((datalen - m : Nat) : Int) := by
        have : (fragVars (datalen : Int) (index : Int) sendlen marker).1
            = (datalen : Int) - (m : Int) := by
          rw [← hm]; simp only [fragVars]
        omega
      have hmle : m ≤ datalen := by omega
      have hsl : slice data (index : Int)
          (fragVars (datalen : Int) (index : Int) sendlen marker).2.1
          = some ((data.drop index).take m) := by
        rw [hidx]
        exact slice_nat data index m (by omega)
      rw [fragLoop_step c data pts last fuel rtp (datalen : Int) (index : Int) sendlen marker _
        hd hsl]
      rw [hdl, hidx, show (index : Int) + (m : Int) = ((index + m : Nat) : Int) by omega]
      exact ih _ _ _ _ _ (by omega) h3

theorem fragmentation_no_panic (c : Consts) (fuel : Nat) (rtp : RtpTransfer) (data : List Nat)
    (pts last : Nat) (hR : RTPHeaderLength < c.RtpLoadLength) :
    (fragmentation c fuel rtp data pts last).status ≠ Status.panicked := by
  unfold fragmentation
  by_cases h : (data.length : Int) + RTPHeaderLength ≤ c.RtpLoadLength
  · simp only [h, if_true]
    simp
  · simp only [h, if_false]
    have := fragLoop_no_panic c data pts last fuel rtp data.length 0
      (c.RtpLoadLength - RTPHeaderLength) 0 (by omega) (by omega)
    simpa using this

/-- With positive sizes no slice of the loop of `Send2data` is out of range. -/
theorem sendLoop_no_panic (c : Consts) (enc : encPSPacket) (n : Nat) (data : List Nat)
    (pts : Nat) (psSys : List Nat) (hp : 0 < c.PESLoadLength)
    (hR : RTPHeaderLength < c.RtpLoadLength) :
    ∀ (fuel : Nat) (rtp : RtpTransfer) (lens index : Nat), index + lens = data.length →
      (sendLoop c enc n data pts psSys fuel rtp (lens : Int) (index : Int)).status
        ≠ Status.panicked := by
  intro fuel
  induction fuel with
  | zero => intro rtp lens index _; simp [sendLoop]
  | succ fuel ih =>
    intro rtp lens index hsum
    rcases Nat.eq_zero_or_pos lens with h0 | hpos
    · subst h0
      rw [sendLoop_exit _ _ _ _ _ _ _ _ _ _ (by simp)]
      simp
    · have hl : (lens : Int) > 0 := by omega
      obtain ⟨m, hm, hmpos, hmle⟩ : ∃ m : Nat,
          (if (lens : Int) > c.PESLoadLength then c.PESLoadLength else (lens : Int)) = (m : Int)
          ∧ 0 < m ∧ m ≤ lens := by
        by_cases hq : (lens : Int) > c.PESLoadLength
        · refine ⟨c.PESLoadLength.toNat, ?_, ?_, ?_⟩
          · rw [if_pos hq]; omega
          · omega
          · omega
        · exact ⟨lens, by rw [if_neg hq], hpos, le_refl _⟩
      unfold sendLoop
      simp only [hl, if_true, hm]
      rw [slice_nat data index m (by omega)]
      simp only
      have e1 : (lens : Int) - (m : Int) = ((lens - m : Nat) : Int) := by omega
      have e2 : (index : Int) + (m : Int) = ((index + m : Nat) : Int) := by omega
      rw [e1, e2]
      split
      · rename_i hst
        exact ih _ _ _ (by omega)
      · rename_i hst
        split <;> exact fragmentation_no_panic _ _ _ _ _ _ hR

/-! ## Termination and slice bounds: claims C19 and C20 -/

/-- Claim C19. With every channel send completing, `Send2data` returns on every
input when `PESLoadLength > 0` and `RtpLoadLength > RTPHeaderLength` (enough
fuel gives status `done`).  In each iteration of the PES loop the remaining
length `lens`, and in each iteration of the loop of `fragmentation` the
remaining length `datalen`, drops by a positive amount and stays at least 0, so
both reach exactly 0 (and the chunk size stays positive).  If `RtpLoadLength =
RTPHeaderLength` the loop of `fragmentation` makes no progress on a non-empty
range: an iteration leaves `datalen` as it was and the fuel always runs out. -/
theorem Send2data_terminates (c : Consts) (enc : encPSPacket) (rtp : RtpTransfer)
    (data : List Nat) (key : Bool) (pts : Nat) :
    (0 < c.PESLoadLength → RTPHeaderLength < c.RtpLoadLength →
        ∃ N : Nat, ∀ fuel : Nat, N ≤ fuel →
          (Send2data c enc fuel rtp data key pts).status = Status.done)
    ∧ (∀ lens index : Int, 0 < c.PESLoadLength → 0 < lens →
        0 ≤ (sendVars c lens index).1 ∧ (sendVars c lens index).1 < lens)
    ∧ (∀ (datalen index sendlen : Int) (marker : Nat), 0 < sendlen → 0 < datalen →
        0 ≤ (fragVars datalen index sendlen marker).1
        ∧ (fragVars datalen index sendlen marker).1 < datalen
        ∧ 0 < (fragVars datalen index sendlen marker).2.2.1)
    ∧ (c.RtpLoadLength = RTPHeaderLength → data ≠ [] →
        ∀ last fuel : Nat,
          (fragmentation c fuel rtp data pts last).status = Status.outOfFuel)
    ∧ (∀ (datalen index : Int) (marker : Nat), 0 < datalen →
        (fragVars datalen index 0 marker).1 = datalen) := by
  refine ⟨?_, ?_, ?_, ?_, ?_⟩
  · intro hp hR
    have hR' : c.RtpLoadLength
        = RTPHeaderLength + (((c.RtpLoadLength - RTPHeaderLength).toNat : Nat) : Int) := by
      omega
    have hPES : c.PESLoadLength = ((c.PESLoadLength.toNat : Nat) : Int) := by omega
    obtain ⟨N, hN⟩ := sendLoopLog_exact c enc data pts (psContainer enc key pts)
      (c.RtpLoadLength - RTPHeaderLength).toNat c.PESLoadLength.toNat (by omega) hR'
      (by omega) hPES data.length 0 (by omega)
    refine ⟨max N (data.length + 1), ?_⟩
    intro fuel hfuel
    have h1 := le_max_left N (data.length + 1)
    have h2 := le_max_right N (data.length + 1)
    obtain ⟨hst, _⟩ := hN rtp fuel fuel (by omega) (by omega)
    rw [sendLoopLog_fst] at hst
    exact hst
  · intro lens index hp hl
    obtain ⟨h1, h2, _, _⟩ := sendVars_decrease c lens index hp hl
    exact ⟨h1, h2⟩
  · intro datalen index sendlen marker hs hd
    obtain ⟨h1, h2, h3, _, _⟩ := fragVars_decrease datalen index sendlen marker hs hd
    exact ⟨h1, h2, h3⟩
  · intro hR hne last fuel
    have hlen : 0 < data.length := List.length_pos.mpr hne
    unfold fragmentation
    have h : ¬ (data.length : Int) + RTPHeaderLength ≤ c.RtpLoadLength := by omega
    simp only [h, if_false]
    have e : c.RtpLoadLength - RTPHeaderLength = 0 := by omega
    rw [e]
    exact fragLoop_stuck c data pts last (data.length : Int) 0 (by omega) (le_refl _)
      (by omega) fuel rtp 0
  · intro datalen index marker hd
    simp only [fragVars]
    have : ¬ datalen ≤ 0 := by omega
    simp [this]

/-- Instance of claim C19 on the sample constants. -/
theorem Send2data_terminates_witness :
    (0 < sampleConsts.PESLoadLength ∧ RTPHeaderLength < sampleConsts.RtpLoadLength)
    ∧ ∃ N : Nat, ∀ fuel : Nat, N ≤ fuel →
        (Send2data sampleConsts sampleEnc fuel sampleUdp
          [1, 2, 3, 4, 5, 6, 7, 8, 9, 10, 11] true 7).status = Status.done :=
  ⟨⟨by decide, by decide⟩,
    (Send2data_terminates sampleConsts sampleEnc sampleUdp
      [1, 2, 3, 4, 5, 6, 7, 8, 9, 10, 11] true 7).1 (by decide) (by decide)⟩

/-- Claim C20. For every input, with `PESLoadLength > 0` and `RtpLoadLength >
RTPHeaderLength`, neither `Send2data` nor `fragmentation` ends in a slice panic,
whatever the fuel.  At an iteration of either loop with `0 <= index`, a positive
remaining length and `index + remaining = len data`, the slice taken satisfies
`0 <= index <= index + size <= len data`, and the same relation between `index`
and the remaining length holds again afterwards. -/
theorem slices_in_bounds (c : Consts) (enc : encPSPacket) (fuel : Nat) (rtp : RtpTransfer)
    (data : List Nat) (key : Bool) (pts last : Nat)
    (hPES : 0 < c.PESLoadLength) (hR : RTPHeaderLength < c.RtpLoadLength) :
    (Send2data c enc fuel rtp data key pts).status ≠ Status.panicked
    ∧ (fragmentation c fuel rtp data pts last).status ≠ Status.panicked
    ∧ (∀ lens index : Int, 0 ≤ index → 0 < lens → index + lens = (data.length : Int) →
        (0 ≤ index ∧ index ≤ (sendVars c lens index).2
          ∧ (sendVars c lens index).2 ≤ (data.length : Int))
        ∧ slice data index (sendVars c lens index).2 ≠ none
        ∧ 0 ≤ (sendVars c lens index).2
        ∧ (sendVars c lens index).2 + (sendVars c lens index).1 = (data.length : Int))
    ∧ (∀ (datalen index sendlen : Int) (marker : Nat), 0 ≤ index → 0 < datalen →
        0 < sendlen → index + datalen = (data.length : Int) →
        (0 ≤ index ∧ index ≤ (fragVars datalen index sendlen marker).2.1
          ∧ (fragVars datalen index sendlen marker).2.1 ≤ (data.length : Int))
        ∧ slice data index (fragVars datalen index sendlen marker).2.1 ≠ none
        ∧ 0 ≤ (fragVars datalen index sendlen marker).2.1
        ∧ (fragVars datalen index sendlen marker).2.1
            + (fragVars datalen index sendlen marker).1 = (data.length : Int)
        ∧ 0 < (fragVars datalen index sendlen marker).2.2.1) := by
  refine ⟨?_, fragmentation_no_panic c fuel rtp data pts last hR, ?_, ?_⟩
  · have := sendLoop_no_panic c enc fuel data pts (psContainer enc key pts) hPES hR fuel rtp
      data.length 0 (by omega)
    exact this
  · intro lens index hi hl hsum
    obtain ⟨h1, h2, h3, h4⟩ := sendVars_decrease c lens index hPES hl
    have hb : 0 ≤ index ∧ index ≤ (sendVars c lens index).2
        ∧ (sendVars c lens index).2 ≤ (data.length : Int) := ⟨hi, h4, by omega⟩
    refine ⟨hb, ?_, by omega, by omega⟩
    unfold slice
    rw [if_pos hb]
    simp
  · intro datalen index sendlen marker hi hd hs hsum
    obtain ⟨h1, h2, h3, h4, h5⟩ := fragVars_decrease datalen index sendlen marker hs hd
    have hb : 0 ≤ index ∧ index ≤ (fragVars datalen index sendlen marker).2.1
        ∧ (fragVars datalen index sendlen marker).2.1 ≤ (data.length : Int) :=
      ⟨hi, h5, by omega⟩
    refine ⟨hb, ?_, by omega, by omega, h3⟩
    unfold slice
    rw [if_pos hb]
    simp

/-- Instance of claim C20 on the sample constants, with little fuel. -/
theorem slices_in_bounds_witness :
    (0 < sampleConsts.PESLoadLength ∧ RTPHeaderLength < sampleConsts.RtpLoadLength)
    ∧ (Send2data sampleConsts sampleEnc 3 sampleUdp
          [1, 2, 3, 4, 5, 6, 7, 8, 9, 10, 11] true 7).status ≠ Status.panicked
    ∧ (fragmentation sampleConsts 3 sampleUdp [1, 2, 3, 4, 5, 6, 7, 8, 9, 10, 11] 7 1).status
        ≠ Status.panicked :=
  ⟨⟨by decide, by decide⟩,
    (slices_in_bounds sampleConsts sampleEnc 3 sampleUdp [1, 2, 3, 4, 5, 6, 7, 8, 9, 10, 11]
      true 7 1 (by decide) (by decide)).1,
    (slices_in_bounds sampleConsts sampleEnc 3 sampleUdp [1, 2, 3, 4, 5, 6, 7, 8, 9, 10, 11]
      true 7 1 (by decide) (by decide)).2.1⟩

/-! ## Delivery tasks and `Exit`: claims C14, C15 and C16 -/

/-- Every return of the loop of `write4udp` goes through `WRITESTOP`: after the
writes, the connection is closed once and then one completion signal is sent. -/
theorem udpLoop_returned (udpconn : Option Nat) :
    ∀ (events : List Event) (done : List Action),
      (udpLoop udpconn done events).ending = Ending.returned →
      ∃ ws : List Action,
        (udpLoop udpconn done events).actions
          = done ++ ws ++ [Action.closeConn, Action.signalQuit]
        ∧ ∀ a ∈ ws, ∃ d : List Nat, a = Action.write d := by
  intro events
  induction events with
  | nil => intro done h; simp [udpLoop] at h
  | cons e rest ih =>
    intro done h
    cases e with
    | packet data lens err =>
      unfold udpLoop at h ⊢
      by_cases hc : udpconn ≠ none
      · rw [if_pos hc] at h ⊢
        by_cases hw : err = true ∨ lens ≠ (data.length : Int)
        · rw [if_pos hw] at h ⊢
          exact ⟨[Action.write data], by simp [writeStop], by simp⟩
        · rw [if_neg hw] at h ⊢
          obtain ⟨ws, h1, h2⟩ := ih _ h
          refine ⟨Action.write data :: ws, by simp [h1], ?_⟩
          intro a ha
          rcases List.mem_cons.mp ha with rfl | ha
          · exact ⟨data, rfl⟩
          · exact h2 a ha
      · rw [if_neg hc] at h ⊢
        exact ih _ h
    | queueClosed => exact ⟨[], by simp [udpLoop, writeStop], by simp⟩
    | timerFired => exact ⟨[], by simp [udpLoop, writeStop], by simp⟩
    | stopRequested => exact ⟨[], by simp [udpLoop, writeStop], by simp⟩

/-- Every return of the running loop of `write4tcppassive` goes through
`WRITESTOP` as well. -/
theorem tcpLoop_returned (conn : Nat) :
    ∀ (events : List Event) (done : List Action),
      (tcpLoop (some conn) done events).ending = Ending.returned →
      ∃ ws : List Action,
        (tcpLoop (some conn) done events).actions
          = done ++ ws ++ [Action.closeConn, Action.signalQuit]
        ∧ ∀ a ∈ ws, ∃ d : List Nat, a = Action.write d := by
  intro events
  induction events with
  | nil => intro done h; simp [tcpLoop] at h
  | cons e rest ih =>
    intro done h
    cases e with
    | packet data lens err =>
      unfold tcpLoop at h ⊢
      simp only at h ⊢
      by_cases hw : err = true ∨ lens ≠ (data.length : Int)
      · rw [if_pos hw] at h ⊢
        exact ⟨[Action.write data], by simp [writeStop], by simp⟩
      · rw [if_neg hw] at h ⊢
        obtain ⟨ws, h1, h2⟩ := ih _ h
        refine ⟨Action.write data :: ws, by simp [h1], ?_⟩
        intro a ha
        rcases List.mem_cons.mp ha with rfl | ha
        · exact ⟨data, rfl⟩
        · exact h2 a ha
    | queueClosed => exact ⟨[], by simp [tcpLoop, writeStop], by simp⟩
    | timerFired => exact ⟨[], by simp [tcpLoop, writeStop], by simp⟩
    | stopRequested => exact ⟨[], by simp [tcpLoop, writeStop], by simp⟩

/-- Claim C14 fails on the code: when `net.ResolveTCPAddr` fails,
`write4tcppassive` returns at once, having neither closed a connection nor sent
the completion signal on `quit`; with a resolved address the same stop request
ends in close, then signal. -/
theorem write4tcppassive_resolve_error :
    (write4tcppassive true [some 7] [Event.stopRequested]).ending = Ending.returned
    ∧ (write4tcppassive true [some 7] [Event.stopRequested]).actions = []
    ∧ Action.signalQuit ∉ (write4tcppassive true [some 7] [Event.stopRequested]).actions
    ∧ (write4tcppassive false [some 7] [Event.stopRequested]).actions
        = [Action.closeConn, Action.signalQuit] := by
  decide

/-- Claim C15 fails as stated: on a session whose task has signalled completion
the first `Exit` returns with `writestop` closed, and a second `Exit` closes it
again and panics. -/
theorem Exit_twice_panics :
    (Exit sampleSignalled).2 = Ending.returned
    ∧ (Exit sampleSignalled).1.writestopClosed = true
    ∧ (Exit (Exit sampleSignalled).1).2 = Ending.panicked := by
  decide

/-- Claim C15, amended. For every session whose `writestop` is still open, one
`Exit` call closes it, once, without panic; `Exit` has no one-shot guard, so a
second `Exit` on the exited session closes the closed channel again and
panics. -/
theorem Exit_closes_unguarded (rtp : RtpTransfer) (hopen : rtp.writestopClosed = false) :
    (Exit rtp).1.writestopClosed = true
    ∧ (Exit rtp).2 ≠ Ending.panicked
    ∧ (Exit (Exit rtp).1).2 = Ending.panicked := by
  have h1 : (Exit rtp).1.writestopClosed = true := by
    unfold Exit
    by_cases ht : rtp.timerProcess = true <;> by_cases hq : rtp.quit = 0 <;>
      simp [ht, hq, hopen]
  refine ⟨h1, ?_, ?_⟩
  · unfold Exit
    by_cases ht : rtp.timerProcess = true <;> by_cases hq : rtp.quit = 0 <;>
      simp [ht, hq, hopen]
  · generalize (Exit rtp).1 = s at h1
    unfold Exit
    by_cases ht : s.timerProcess = true <;> simp [ht, h1]

/-- Instance of the amended claim C15. -/
theorem Exit_closes_unguarded_witness :
    sampleSignalled.writestopClosed = false
    ∧ (Exit sampleSignalled).1.writestopClosed = true
    ∧ (Exit sampleSignalled).2 ≠ Ending.panicked
    ∧ (Exit (Exit sampleSignalled).1).2 = Ending.panicked :=
  ⟨rfl, Exit_closes_unguarded sampleSignalled rfl⟩

/-- Claim C16 fails as stated: after `Service` has failed on an unknown mode, no
task is started and `Exit` stays waiting on `quit`. -/
theorem Exit_after_failed_Service_waits :
    (Service sampleConsts sampleDial { sampleUdp with protocol := 9 }
        "10.0.0.1" "10.0.0.2" 5000 6000).2 = some "unknown transfer way"
    ∧ (Service sampleConsts sampleDial { sampleUdp with protocol := 9 }
        "10.0.0.1" "10.0.0.2" 5000 6000).1.started = []
    ∧ (Exit (Service sampleConsts sampleDial { sampleUdp with protocol := 9 }
        "10.0.0.1" "10.0.0.2" 5000 6000).1).2 = Ending.waiting := by
  decide

/-- Claim C16, amended. If `Service` returned an error for an unsupported
transport mode on a session with no delivery task, no pending completion signal
and `writestop` open, a subsequent `Exit` does not panic but is not a no-op and
does not return: it stops the ticker, closes `writestop` and then waits on
`<-rtp.quit`, with no delivery task started that could send the signal. -/
theorem Exit_without_task_blocks (c : Consts)
    (dial : String → Int → String → Int → Except String Nat) (rtp : RtpTransfer)
    (srcip dstip : String) (srcport dstport : Int)
    (hudp : rtp.protocol ≠ c.UDPTransfer)
    (hpas : rtp.protocol ≠ c.TCPTransferPassive)
    (hact : rtp.protocol ≠ c.TCPTransferActive)
    (hnone : rtp.started = []) (hquit : rtp.quit = 0) (hopen : rtp.writestopClosed = false) :
    (Service c dial rtp srcip dstip srcport dstport).2 ≠ none
    ∧ (Service c dial rtp srcip dstip srcport dstport).1.started = []
    ∧ (Exit (Service c dial rtp srcip dstip srcport dstport).1).2 = Ending.waiting
    ∧ (Exit (Service c dial rtp srcip dstip srcport dstport).1).1.writestopClosed = true
    ∧ (Exit (Service c dial rtp srcip dstip srcport dstport).1).1.timerStopped = true
    ∧ (Exit (Service c dial rtp srcip dstip srcport dstport).1).1.quit = 0
    ∧ (Exit (Service c dial rtp srcip dstip srcport dstport).1).1.started = [] := by
  have hs : Service c dial rtp srcip dstip srcport dstport
      = ({ rtp with timerProcess := true }, some "unknown transfer way") := by
    unfold Service
    by_cases ht : rtp.timerProcess = false
    · simp [ht, hudp, hpas, hact]
    · have ht' : rtp.timerProcess = true := by simpa using ht
      simp only [ht', hudp, hpas, hact]
      simp
      cases rtp
      simp_all
  rw [hs]
  simp [Exit, hnone, hquit, hopen]

/-- Instance of the amended claim C16 with mode 9. -/
theorem Exit_without_task_blocks_witness :
    (({ sampleUdp with protocol := 9 } : RtpTransfer).protocol ≠ sampleConsts.UDPTransfer
      ∧ ({ sampleUdp with protocol := 9 } : RtpTransfer).protocol
          ≠ sampleConsts.TCPTransferPassive
      ∧ ({ sampleUdp with protocol := 9 } : RtpTransfer).protocol
          ≠ sampleConsts.TCPTransferActive
      ∧ ({ sampleUdp with protocol := 9 } : RtpTransfer).started = []
      ∧ ({ sampleUdp with protocol := 9 } : RtpTransfer).quit = 0
      ∧ ({ sampleUdp with protocol := 9 } : RtpTransfer).writestopClosed = false)
    ∧ (Service sampleConsts sampleDial { sampleUdp with protocol := 9 }
        "10.0.0.1" "10.0.0.2" 5000 6000).2 ≠ none
    ∧ (Exit (Service sampleConsts sampleDial { sampleUdp with protocol := 9 }
        "10.0.0.1" "10.0.0.2" 5000 6000).1).2 = Ending.waiting :=
  ⟨⟨by decide, by decide, by decide, rfl, rfl, rfl⟩,
    (Exit_without_task_blocks sampleConsts sampleDial { sampleUdp with protocol := 9 }
      "10.0.0.1" "10.0.0.2" 5000 6000 (by decide) (by decide) (by decide) rfl rfl rfl).1,
    (Exit_without_task_blocks sampleConsts sampleDial { sampleUdp with protocol := 9 }
      "10.0.0.1" "10.0.0.2" 5000 6000 (by decide) (by decide) (by decide) rfl rfl rfl).2.2.1⟩

end packet
